import Mathlib

/-!
Shallow embedding of the rnp package manager core (src/cache.rs,
src/commands/install.rs, src/commands/uninstall.rs) and proofs about it.

Modelling conventions:
* Rust `String`/`&str` become Lean `String`; character-level scanning is done
  on `String.data` (a `List Char`).  The repository only ever feeds ASCII text
  to the scanned paths, so `trim`/whitespace checks use the ASCII whitespace
  set.
* Byte buffers become `List Nat` (each element one byte).
* Cryptographic primitives (SHA-1, SHA-256, SHA-512) and base64 decoding come
  from third-party crates, not from this repository; they are taken as
  function parameters of the definitions that call them.  Everything the
  repository itself does around them (hex formatting, case-insensitive
  comparison, prefix handling, control flow) is modelled concretely.
* The `semver` crate types (`Version`, `VersionReq`) are modelled after that
  crate's documented Cargo semantics: a bare version in a requirement uses the
  caret operator, `*`/`x`/`X` parses to the match-all requirement, and
  prerelease identifiers order per semver 2.0.0.  Build metadata is parsed and
  discarded; it never affects matching and the repository never relies on its
  tie-breaking order.
* Filesystem and network effects become explicit state (association lists) or
  are abstracted as succeeding, as noted on each definition.
-/

/-- Ascii whitespace test used to model Rust `str::trim` on the ASCII inputs
the repository feeds it. -/
def isWsChar (c : Char) : Bool :=
  c == ' ' || c == '\t' || c == '\n' || c == '\r'

/-- Trim ASCII whitespace from both ends of a character list. -/
def trimChars (cs : List Char) : List Char :=
  ((cs.dropWhile isWsChar).reverse.dropWhile isWsChar).reverse

/-- Numeric value of a digit list (most significant first). -/
def digitsVal (cs : List Char) : Nat :=
  cs.foldl (fun acc c => acc * 10 + (c.toNat - 48)) 0

/-- Model of Rust `str::parse::<u64>().unwrap_or(0)`: an optional leading
`+`, then decimal digits fitting in 64 bits; anything else yields 0. -/
def parseU64OrZero (cs : List Char) : Nat :=
  let body := match cs with
    | '+' :: rest => rest
    | other => other
  if body ≠ [] && body.all Char.isDigit && digitsVal body < 2 ^ 64 then
    digitsVal body
  else 0

/-- Split a character list at every occurrence of a separator character,
keeping empty parts, as Rust `str::split(char)` does. -/
def splitOnChar (sep : Char) : List Char → List (List Char)
  | [] => [[]]
  | c :: rest =>
    if c = sep then [] :: splitOnChar sep rest
    else
      match splitOnChar sep rest with
      | [] => [[c]]
      | p :: ps => (c :: p) :: ps

/-- Split at the first occurrence of a separator character, as Rust
`str::split_once(char)`; `none` when the separator is absent. -/
def splitOnceChar (sep : Char) : List Char → Option (List Char × List Char)
  | [] => none
  | c :: rest =>
    if c = sep then some ([], rest)
    else (splitOnceChar sep rest).map fun p => (c :: p.1, p.2)

/-- Three-way comparison on naturals, the model of `u64::cmp`. -/
def natCmp (a b : Nat) : Ordering :=
  if a < b then .lt else if b < a then .gt else .eq

/-- Three-way comparison on characters by code point, the model of byte-wise
`str` ordering (UTF-8 byte order agrees with code-point order). -/
def charCmp (a b : Char) : Ordering :=
  natCmp a.toNat b.toNat

/-- Lexicographic comparison of lists from an element comparison; a strict
prefix is smaller. -/
def lexCmp (c : α → α → Ordering) : List α → List α → Ordering
  | [], [] => .eq
  | [], _ :: _ => .lt
  | _ :: _, [] => .gt
  | x :: xs, y :: ys =>
    match c x y with
    | .eq => lexCmp c xs ys
    | o => o

/-- Lexicographic combination of two comparisons. -/
def thenCmp (c₁ c₂ : α → α → Ordering) (a b : α) : Ordering :=
  (c₁ a b).then (c₂ a b)

/-- Comparison of strings, the model of Rust `str::cmp`. -/
def strCmp (a b : String) : Ordering :=
  lexCmp charCmp a.data b.data

/-- Prerelease identifier: numeric identifiers compare numerically and sort
before alphanumeric ones, per semver 2.0.0. -/
inductive PreId where
  | num (n : Nat)
  | alpha (s : String)
deriving DecidableEq

/-- Comparison of prerelease identifiers per semver 2.0.0. -/
def preIdCmp : PreId → PreId → Ordering
  | .num a, .num b => natCmp a b
  | .num _, .alpha _ => .lt
  | .alpha _, .num _ => .gt
  | .alpha a, .alpha b => strCmp a b

/-- Comparison of whole prerelease components: an empty prerelease (a real
release) compares greater than any non-empty one, matching the semver crate's
`Ord for Prerelease`. -/
def preCmp : List PreId → List PreId → Ordering
  | [], [] => .eq
  | [], _ :: _ => .gt
  | _ :: _, [] => .lt
  | a@(_ :: _), b@(_ :: _) => lexCmp preIdCmp a b

/-- Model of `semver::Version` (major, minor, patch, prerelease).  Build
metadata is accepted by the parser and discarded; it does not participate in
matching. -/
structure SemVer where
  major : Nat
  minor : Nat
  patch : Nat
  pre : List PreId
deriving DecidableEq

/-- Precedence comparison of versions per semver 2.0.0 (the semver crate's
`Version::cmp` up to build metadata, which the repository never relies on). -/
def semverCmp : SemVer → SemVer → Ordering :=
  thenCmp (fun a b => natCmp a.major b.major)
    (thenCmp (fun a b => natCmp a.minor b.minor)
      (thenCmp (fun a b => natCmp a.patch b.patch)
        (fun a b => preCmp a.pre b.pre)))

/-- Boolean `a ≤ b` on versions, derived from the three-way comparison. -/
def semverLeB (a b : SemVer) : Bool :=
  match semverCmp a b with
  | .gt => false
  | _ => true

/-- Numeric semver identifier: non-empty digits with no leading zero. -/
def parseNumericId (cs : List Char) : Option Nat :=
  if cs = [] then none
  else if !cs.all Char.isDigit then none
  else if cs.length > 1 && cs.head? = some '0' then none
  else some (digitsVal cs)

/-- Character set allowed in prerelease and build identifiers. -/
def isIdentChar (c : Char) : Bool :=
  c.isAlphanum || c == '-'

/-- Parse one prerelease identifier: all-digit identifiers are numeric (no
leading zeros allowed), all others alphanumeric. -/
def parsePreId (cs : List Char) : Option PreId :=
  if cs = [] then none
  else if !cs.all isIdentChar then none
  else if cs.all Char.isDigit then
    if cs.length > 1 && cs.head? = some '0' then none
    else some (.num (digitsVal cs))
  else some (.alpha (String.mk cs))

/-- Parse a dot-separated prerelease component. -/
def parsePreList (cs : List Char) : Option (List PreId) :=
  (splitOnChar '.' cs).mapM parsePreId

/-- Validate a dot-separated build component (identifiers are discarded). -/
def validBuild (cs : List Char) : Bool :=
  (splitOnChar '.' cs).all fun part => part ≠ [] && part.all isIdentChar

/-- Model of `semver::Version::parse`: `major.minor.patch` with optional
`-prerelease` and `+build`; no surrounding whitespace is accepted. -/
def semverParseChars (cs : List Char) : Option SemVer :=
  let coreBuild := match splitOnceChar '+' cs with
    | some (a, b) => (a, some b)
    | none => (cs, (none : Option (List Char)))
  let core := coreBuild.1
  let build := coreBuild.2
  let mainPre := match splitOnceChar '-' core with
    | some (a, b) => (a, some b)
    | none => (core, (none : Option (List Char)))
  let main := mainPre.1
  let pre := mainPre.2
  match splitOnChar '.' main with
  | [ma, mi, pa] =>
    match parseNumericId ma, parseNumericId mi, parseNumericId pa with
    | some major, some minor, some patch =>
      let preIds := match pre with
        | none => some []
        | some p => parsePreList p
      match preIds with
      | none => none
      | some preL =>
        match build with
        | none => some ⟨major, minor, patch, preL⟩
        | some b => if validBuild b then some ⟨major, minor, patch, preL⟩ else none
    | _, _, _ => none
  | _ => none

/-- Parse a version from a string. -/
def SemVer.parse (s : String) : Option SemVer :=
  semverParseChars s.data

/-- Render a prerelease identifier. -/
def PreId.render : PreId → String
  | .num n => toString n
  | .alpha s => s

/-- Canonical text of a version, the model of `Version`'s `Display`. -/
def SemVer.text (v : SemVer) : String :=
  let base := toString v.major ++ "." ++ toString v.minor ++ "." ++ toString v.patch
  match v.pre with
  | [] => base
  | p₀ :: rest => base ++ "-" ++ (rest.foldl (fun acc i => acc ++ "." ++ i.render) p₀.render)

/-- Requirement operators of the semver crate; a bare version with no operator
uses `caret` (Cargo semantics), wildcard components with no operator use
`wildcard`. -/
inductive ReqOp where
  | exact
  | greater
  | greaterEq
  | less
  | lessEq
  | tilde
  | caret
  | wildcard
deriving DecidableEq

/-- One comparator of a semver-crate `VersionReq`. -/
structure Comparator where
  op : ReqOp
  major : Nat
  minor : Option Nat
  patch : Option Nat
  pre : List PreId
deriving DecidableEq

/-- Model of the semver crate's `matches_exact`. -/
def matchesExact (c : Comparator) (v : SemVer) : Bool :=
  v.major == c.major
  && (match c.minor with | none => true | some m => v.minor == m)
  && (match c.patch with | none => true | some p => v.patch == p)
  && v.pre == c.pre

/-- Model of the semver crate's `matches_greater`. -/
def matchesGreater (c : Comparator) (v : SemVer) : Bool :=
  if v.major != c.major then c.major < v.major
  else match c.minor with
    | none => false
    | some m =>
      if v.minor != m then m < v.minor
      else match c.patch with
        | none => false
        | some p =>
          if v.patch != p then p < v.patch
          else preCmp v.pre c.pre == .gt

/-- Model of the semver crate's `matches_less`. -/
def matchesLess (c : Comparator) (v : SemVer) : Bool :=
  if v.major != c.major then v.major < c.major
  else match c.minor with
    | none => false
    | some m =>
      if v.minor != m then v.minor < m
      else match c.patch with
        | none => false
        | some p =>
          if v.patch != p then v.patch < p
          else preCmp v.pre c.pre == .lt

/-- Boolean `a ≥ b` on prerelease components. -/
def preGe (a b : List PreId) : Bool :=
  preCmp a b != .lt

/-- Model of the semver crate's `matches_tilde`. -/
def matchesTilde (c : Comparator) (v : SemVer) : Bool :=
  if v.major != c.major then false
  else if (match c.minor with | some m => v.minor != m | none => false) then false
  else match c.patch with
    | some p => if v.patch != p then p < v.patch else preGe v.pre c.pre
    | none => preGe v.pre c.pre

/-- Model of the semver crate's `matches_caret`. -/
def matchesCaret (c : Comparator) (v : SemVer) : Bool :=
  if v.major != c.major then false
  else match c.minor with
  | none => true
  | some minor =>
    match c.patch with
    | none => if c.major > 0 then minor ≤ v.minor else v.minor == minor
    | some patch =>
      if c.major > 0 then
        if v.minor != minor then minor < v.minor
        else if v.patch != patch then patch < v.patch
        else preGe v.pre c.pre
      else if minor > 0 then
        if v.minor != minor then false
        else if v.patch != patch then patch < v.patch
        else preGe v.pre c.pre
      else if v.minor != minor || v.patch != patch then false
      else preGe v.pre c.pre

/-- Dispatch of one comparator against a version, the semver crate's
`matches_impl`. -/
def matchesImpl (c : Comparator) (v : SemVer) : Bool :=
  match c.op with
  | .exact => matchesExact c v
  | .wildcard => matchesExact c v
  | .greater => matchesGreater c v
  | .greaterEq => matchesExact c v || matchesGreater c v
  | .less => matchesLess c v
  | .lessEq => matchesExact c v || matchesLess c v
  | .tilde => matchesTilde c v
  | .caret => matchesCaret c v

/-- A comparator opts a prerelease version in only when it pins the same
triple and itself carries a prerelease. -/
def preIsCompatible (c : Comparator) (v : SemVer) : Bool :=
  c.major == v.major && c.minor == some v.minor && c.patch == some v.patch
  && !c.pre.isEmpty

/-- Model of the semver crate's `VersionReq::matches`: every comparator must
match, and a prerelease version additionally needs one compatible
prerelease comparator. -/
def reqMatches (req : List Comparator) (v : SemVer) : Bool :=
  req.all (fun c => matchesImpl c v)
  && (v.pre.isEmpty || req.any (fun c => preIsCompatible c v))

/-- Leading requirement operator, if any. -/
def parseReqOp : List Char → Option ReqOp × List Char
  | '>' :: '=' :: rest => (some .greaterEq, rest)
  | '>' :: rest => (some .greater, rest)
  | '<' :: '=' :: rest => (some .lessEq, rest)
  | '<' :: rest => (some .less, rest)
  | '=' :: rest => (some .exact, rest)
  | '~' :: rest => (some .tilde, rest)
  | '^' :: rest => (some .caret, rest)
  | cs => (none, cs)

/-- Wildcard component characters accepted by the semver crate. -/
def wildcardChar (c : Char) : Bool :=
  c == '*' || c == 'x' || c == 'X'

/-- Optional `-prerelease` and `+build` suffix of a comparator; build
metadata is validated and discarded. -/
def parsePreBuild (cs : List Char) : Except String (List PreId) :=
  match cs with
  | [] => .ok []
  | '-' :: rest =>
    let preBuild := match splitOnceChar '+' rest with
      | some (a, b) => (a, some b)
      | none => (rest, (none : Option (List Char)))
    match parsePreList preBuild.1 with
    | none => .error "malformed prerelease in comparator"
    | some pre =>
      match preBuild.2 with
      | none => .ok pre
      | some b => if validBuild b then .ok pre else .error "malformed build metadata"
  | '+' :: rest => if validBuild rest then .ok [] else .error "malformed build metadata"
  | _ => .error "unexpected character in comparator"

/-- Components of a comparator after its major number: minor, patch,
prerelease and whether a wildcard component was used. -/
def parseComparatorTail (cs : List Char) :
    Except String (Option Nat × Option Nat × List PreId × Bool) :=
  match cs with
  | [] => .ok (none, none, [], false)
  | '.' :: rest =>
    match rest with
    | [] => .error "expected minor version"
    | c :: rest2 =>
      if wildcardChar c then
        match rest2 with
        | [] => .ok (none, none, [], true)
        | '.' :: rest3 =>
          match rest3 with
          | [c2] => if wildcardChar c2 then .ok (none, none, [], true)
                    else .error "unexpected component after wildcard"
          | _ => .error "unexpected component after wildcard"
        | _ => .error "unexpected character after wildcard"
      else
        let minorSpan := rest.span Char.isDigit
        match parseNumericId minorSpan.1 with
        | none => .error "expected numeric minor version"
        | some minor =>
          match minorSpan.2 with
          | [] => .ok (some minor, none, [], false)
          | '.' :: rest3 =>
            match rest3 with
            | [] => .error "expected patch version"
            | c2 :: rest4 =>
              if wildcardChar c2 then
                if rest4 = [] then .ok (some minor, none, [], true)
                else .error "unexpected character after wildcard"
              else
                let patchSpan := rest3.span Char.isDigit
                match parseNumericId patchSpan.1 with
                | none => .error "expected numeric patch version"
                | some patch =>
                  match parsePreBuild patchSpan.2 with
                  | .error e => .error e
                  | .ok pre => .ok (some minor, some patch, pre, false)
          | _ => .error "unexpected character after minor version"
  | _ => .error "unexpected character after major version"

/-- Model of the semver crate's comparator parser: optional operator,
optional whitespace, then a (possibly partial or wildcarded) version.  A bare
comparator with no operator defaults to caret, the Cargo interpretation. -/
def parseComparator (cs : List Char) : Except String Comparator :=
  let opSplit := parseReqOp cs
  let body := opSplit.2.dropWhile isWsChar
  match body with
  | [] => .error "expected version in comparator"
  | c :: _ =>
    if wildcardChar c then
      .error "wildcard major version must be the entire requirement"
    else
      let majorSpan := body.span Char.isDigit
      match parseNumericId majorSpan.1 with
      | none => .error "expected numeric major version"
      | some major =>
        match parseComparatorTail majorSpan.2 with
        | .error e => .error e
        | .ok (minor, patch, pre, usedWild) =>
          let op := match opSplit.1 with
            | none => if usedWild then ReqOp.wildcard else ReqOp.caret
            | some o => o
          .ok ⟨op, major, minor, patch, pre⟩

/-- Model of `semver::VersionReq::parse`: a lone `*`/`x`/`X` is the match-all
requirement; otherwise comma-separated comparators. -/
def versionReqParseChars (cs : List Char) : Except String (List Comparator) :=
  let t := trimChars cs
  if t = [] then .error "empty requirement"
  else if t = ['*'] || t = ['x'] || t = ['X'] then .ok []
  else (splitOnChar ',' cs).mapM fun part => parseComparator (trimChars part)

/-- Split a character list at every occurrence of the two-character separator
`||`, keeping empty parts, as Rust `str::split("||")` does. -/
def splitBars : List Char → List (List Char)
  | [] => [[]]
  | '|' :: '|' :: rest => [] :: splitBars rest
  | c :: rest =>
    match splitBars rest with
    | [] => [[c]]
    | p :: ps => (c :: p) :: ps

/-- Split at the first occurrence of the three-character separator
`" - "`, as `str::split_once(" - ")`. -/
def splitOnceSpacedHyphen : List Char → Option (List Char × List Char)
  | ' ' :: '-' :: ' ' :: rest => some ([], rest)
  | c :: rest => (splitOnceSpacedHyphen rest).map fun p => (c :: p.1, p.2)
  | [] => none

/-- Helper of the whitespace splitter: accumulates the current token in
reverse. -/
def splitWsAux : List Char → List Char → List (List Char)
  | [], acc => if acc = [] then [] else [acc.reverse]
  | c :: rest, acc =>
    if isWsChar c then
      if acc = [] then splitWsAux rest []
      else acc.reverse :: splitWsAux rest []
    else splitWsAux rest (c :: acc)

/-- Model of `str::split_whitespace` (no empty tokens). -/
def splitWs (cs : List Char) : List (List Char) :=
  splitWsAux cs []

/-- Wildcard test for one dotted component: `*` or case-insensitive `x`. -/
def isWildPart (cs : List Char) : Bool :=
  cs = ['*'] || cs = ['x'] || cs = ['X']

/-- Model of `normalize_wildcard_clause` from src/commands/install.rs. -/
def normalizeWildcardClause (clause : List Char) : List Char :=
  let trimmed := trimChars clause
  if trimmed = ['*'] || trimmed = ['x'] || trimmed = ['X'] then ['*']
  else
    let parts := splitOnChar '.' trimmed
    let major := parts.head?.getD ['0']
    let minor := (parts.get? 1).getD ['x']
    let patch := (parts.get? 2).getD ['x']
    if isWildPart major then ['*']
    else if isWildPart minor then
      let majorNum := parseU64OrZero major
      (">=" ++ toString majorNum ++ ".0.0, <" ++ toString (majorNum + 1) ++ ".0.0").data
    else
      let majorNum := parseU64OrZero major
      let minorNum := parseU64OrZero minor
      if isWildPart patch then
        (">=" ++ toString majorNum ++ "." ++ toString minorNum ++ ".0, <"
          ++ toString majorNum ++ "." ++ toString (minorNum + 1) ++ ".0").data
      else clause

/-- Folding loop over whitespace tokens from `normalize_npm_clause`: operator
tokens (`<`/`>`-prefixed) glue the following token onto themselves, other
tokens are comma-separated. -/
def npmTokenFold : List (List Char) → List Char → Bool → List Char
  | [], result, _ => result
  | token :: rest, result, lastWasOp =>
    if token.head? = some '<' || token.head? = some '>' then
      let r := if result ≠ [] then result ++ (", ").data else result
      npmTokenFold rest (r ++ token) true
    else
      if lastWasOp then npmTokenFold rest (result ++ token) false
      else
        let r := if result ≠ [] then result ++ (", ").data else result
        npmTokenFold rest (r ++ token) false

/-- Model of `normalize_npm_clause` from src/commands/install.rs.  The
argument is the already-trimmed clause, exactly as the source calls it. -/
def normalizeNpmClause (clause : List Char) : List Char :=
  if clause = [] || clause = ['*'] then ['*']
  else
    match splitOnceSpacedHyphen clause with
    | some (a, b) =>
      (">=").data ++ trimChars a ++ (", <=").data ++ trimChars b
    | none =>
      if clause.contains 'x' || clause.contains 'X' || clause.contains '*' then
        normalizeWildcardClause clause
      else
        let result := npmTokenFold (splitWs clause) [] false
        if result = [] then clause else result

/-- Model of `NpmVersionReq` from src/commands/install.rs: the preserved raw
text plus one semver-crate requirement per `||`-separated clause. -/
structure NpmVersionReq where
  raw : String
  clauses : List (List Comparator)
deriving DecidableEq

/-- Model of `NpmVersionReq::parse`: trim (empty becomes `*`), split on `||`,
normalize each clause and hand it to the semver-crate parser. -/
def NpmVersionReq.parse (input : String) : Except String NpmVersionReq :=
  let rawChars := if trimChars input.data = [] then ['*'] else trimChars input.data
  match (splitBars rawChars).mapM
      (fun clause => versionReqParseChars (normalizeNpmClause (trimChars clause))) with
  | .error e => .error e
  | .ok clauses =>
    let clauses := if clauses = [] then [[]] else clauses
    .ok ⟨String.mk rawChars, clauses⟩

/-- Model of `NpmVersionReq::any` (parse of `*`). -/
def NpmVersionReq.any : Except String NpmVersionReq :=
  NpmVersionReq.parse "*"

/-- Model of `NpmVersionReq::matches`: any clause whose comparators all
match. -/
def NpmVersionReq.matches (r : NpmVersionReq) (v : SemVer) : Bool :=
  r.clauses.any fun req => reqMatches req v

/-- Model of `NpmVersionReq::display` (echoes the stored raw text). -/
def NpmVersionReq.display (r : NpmVersionReq) : String :=
  r.raw

example : (NpmVersionReq.parse "1.2.3").map (fun r => r.matches ⟨1, 5, 0, []⟩) = .ok true := by rfl
example : (NpmVersionReq.parse "1.2.3").map (fun r => r.matches ⟨2, 0, 0, []⟩) = .ok false := by rfl
example : (NpmVersionReq.parse "1.2.x").map (fun r => r.matches ⟨1, 2, 99, []⟩) = .ok true := by rfl
example : (NpmVersionReq.parse "1.2.x").map (fun r => r.matches ⟨1, 3, 0, []⟩) = .ok false := by rfl
example : (NpmVersionReq.parse "1.2.3 - 2.0.0").map (fun r => r.matches ⟨2, 0, 0, []⟩) = .ok true := by rfl
example : (NpmVersionReq.parse "1.2.3 - 2.0.0").map (fun r => r.matches ⟨2, 0, 1, []⟩) = .ok false := by rfl
example : (NpmVersionReq.parse "^0.2.3").map (fun r => r.matches ⟨0, 2, 9, []⟩) = .ok true := by rfl
example : (NpmVersionReq.parse "^0.2.3").map (fun r => r.matches ⟨0, 3, 0, []⟩) = .ok false := by rfl
example : (NpmVersionReq.parse "").map (fun r => r.display) = .ok "*" := by rfl
example : (NpmVersionReq.parse ">=1.0.0 <2.0.0").map (fun r => r.matches ⟨1, 9, 9, []⟩) = .ok true := by rfl
example : SemVer.parse "1.2.3-alpha.1+build.5" = some ⟨1, 2, 3, [.alpha "alpha", .num 1]⟩ := by rfl
example : SemVer.parse "01.2.3" = none := by rfl

/-- Lookup in an association list keyed by strings. -/
def assocLookup (k : String) : List (String × α) → Option α
  | [] => none
  | (k₀, v₀) :: rest => if k₀ = k then some v₀ else assocLookup k rest

/-- Overwrite-or-append update of an association list, the model of writing a
file at a path. -/
def assocUpdate (k : String) (v : α) : List (String × α) → List (String × α)
  | [] => [(k, v)]
  | (k₀, v₀) :: rest =>
    if k₀ = k then (k, v) :: rest else (k₀, v₀) :: assocUpdate k v rest

/-- Remove a key from an association list, the model of deleting a file. -/
def assocErase (k : String) : List (String × α) → List (String × α)
  | [] => []
  | (k₀, v₀) :: rest =>
    if k₀ = k then assocErase k rest else (k₀, v₀) :: assocErase k rest

/-- Ascii lowercase of a code point, the model of `u8::to_ascii_lowercase`. -/
def asciiLowerNat (n : Nat) : Nat :=
  if 65 ≤ n ∧ n ≤ 90 then n + 32 else n

/-- Model of Rust `str::eq_ignore_ascii_case`. -/
def eqIgnoreAsciiCase (a b : String) : Bool :=
  a.data.length == b.data.length
  && (a.data.zip b.data).all fun p => asciiLowerNat p.1.toNat == asciiLowerNat p.2.toNat

/-- Lowercase hex digit for a value below 16. -/
def hexDigit (n : Nat) : Char :=
  if n < 10 then Char.ofNat (48 + n) else Char.ofNat (87 + n)

/-- Lowercase hex rendering of a byte list, the model of `format!("{:x}")` on
a digest. -/
def hexLower (bytes : List Nat) : String :=
  String.mk (bytes.foldr (fun b acc => hexDigit (b / 16 % 16) :: hexDigit (b % 16) :: acc) [])

/-- Model of `PackageCache::verify_sha1_checksum`: lowercase-hex the SHA-1 of
the data and compare case-insensitively.  The SHA-1 compression function
itself is a parameter. -/
def verifySha1Checksum (sha1 : List Nat → List Nat) (data : List Nat) (expected : String) : Bool :=
  eqIgnoreAsciiCase (hexLower (sha1 data)) expected

/-- One cached blob: its bytes and its age (time since its mtime). -/
structure CacheEntry where
  data : List Nat
  age : Nat
deriving DecidableEq

/-- The cache directory, one entry per blob file name. -/
abbrev CacheStore := List (String × CacheEntry)

/-- Model of `PackageCache::tarball_path`: the blob file name is the SHA-256
hex (a parameter) of `name@version`, suffixed `.tgz`. -/
def cacheBlobName (sha256hex : String → String) (name version : String) : String :=
  sha256hex (name ++ "@" ++ version) ++ ".tgz"

/-- Model of `PackageCache::save_tarball`: write the blob; its mtime is now,
so its age is 0. -/
def saveTarball (sha256hex : String → String) (store : CacheStore)
    (name version : String) (data : List Nat) : CacheStore :=
  assocUpdate (cacheBlobName sha256hex name version) ⟨data, 0⟩ store

/-- Model of `PackageCache::invalidate_tarball`. -/
def invalidateTarball (sha256hex : String → String) (store : CacheStore)
    (name version : String) : CacheStore :=
  assocErase (cacheBlobName sha256hex name version) store

/-- Model of `PackageCache::is_fresh`: the age must not exceed `maxAge`. -/
def cacheIsFresh (e : CacheEntry) (maxAge : Nat) : Bool :=
  e.age ≤ maxAge

/-- Model of `PackageCache::get_valid_tarball`: returns the bytes and the
resulting cache directory.  A missing blob returns `none`; a stale blob or a
blob failing the optional SHA-1 check is deleted and `none` is returned. -/
def getValidTarball (sha1 : List Nat → List Nat) (sha256hex : String → String)
    (store : CacheStore) (name version : String)
    (expectedSha1 : Option String) (maxAge : Nat) :
    Option (List Nat) × CacheStore :=
  let key := cacheBlobName sha256hex name version
  match assocLookup key store with
  | none => (none, store)
  | some e =>
    if !cacheIsFresh e maxAge then
      (none, invalidateTarball sha256hex store name version)
    else
      match expectedSha1 with
      | some expected =>
        if verifySha1Checksum sha1 e.data expected then (some e.data, store)
        else (none, invalidateTarball sha256hex store name version)
      | none => (some e.data, store)

/-- Advance time over the whole cache directory by `t`. -/
def elapseCache (t : Nat) (store : CacheStore) : CacheStore :=
  store.map fun p => (p.1, ⟨p.2.data, p.2.age + t⟩)

/-- Model of `PackageInfo` from src/commands/install.rs.  Hash maps become
association lists. -/
structure PackageInfo where
  name : String
  version : SemVer
  dependencies : List (String × NpmVersionReq)
  peerDependencies : List (String × NpmVersionReq)
  optionalDependencies : List (String × NpmVersionReq)
  tarballUrl : String
  integrity : Option String
  shasum : Option String
  isWorkspace : Bool
  workspacePath : Option String
  enginesNode : Option NpmVersionReq
  osConstraints : List String
  cpuConstraints : List String
  lifecycleScripts : List (String × String)
  binEntries : List (String × String)
deriving DecidableEq

/-- Model of `ResolvedPackage`: a package accepted into the graph. -/
structure ResolvedPackage where
  info : PackageInfo
  depth : Nat
  optional : Bool
deriving DecidableEq

/-- Strip the literal `sha512-` marker from an integrity string. -/
def dropSha512Tag (s : String) : Option String :=
  match s.data with
  | 's' :: 'h' :: 'a' :: '5' :: '1' :: '2' :: '-' :: rest => some (String.mk rest)
  | _ => none

/-- Model of `verify_integrity_sha512`: the string must carry the `sha512-`
marker, its remainder must base64-decode, and the decoded bytes must equal
the SHA-512 of the data.  The hash and the decoder are parameters. -/
def verifyIntegritySha512 (sha512 : List Nat → List Nat) (b64decode : String → Option (List Nat))
    (data : List Nat) (integrity : String) : Bool :=
  match dropSha512Tag integrity with
  | none => false
  | some encoded =>
    match b64decode encoded with
    | none => false
    | some expected => sha512 data == expected

/-- Model of `verify_tarball_integrity`: an `integrity` field is checked via
SHA-512 (and `shasum` is then ignored); otherwise a `shasum` field is checked
via SHA-1; otherwise the blob is accepted. -/
def verifyTarballIntegrity (sha512 : List Nat → List Nat) (b64decode : String → Option (List Nat))
    (sha1 : List Nat → List Nat) (p : PackageInfo) (data : List Nat) : Except String Unit :=
  match p.integrity with
  | some integrity =>
    if !verifyIntegritySha512 sha512 b64decode data integrity then
      .error ("integrity verification failed for " ++ p.name ++ "@" ++ p.version.text)
    else .ok ()
  | none =>
    match p.shasum with
    | some expected =>
      if !verifySha1Checksum sha1 data expected then
        .error ("checksum verification failed for " ++ p.name ++ "@" ++ p.version.text)
      else .ok ()
    | none => .ok ()

/-- Host platform as seen by the installer: raw OS and CPU names plus the
detected node version, if any. -/
structure Env where
  os : String
  cpu : String
  nodeVersion : Option SemVer
deriving DecidableEq

/-- Model of `current_node_os`: canonicalise the host OS to registry
tokens. -/
def canonicalOs (osName : String) : String :=
  if osName = "macos" then "darwin"
  else if osName = "windows" then "win32"
  else osName

/-- Model of `current_node_cpu`: canonicalise the host CPU to registry
tokens. -/
def canonicalCpu (cpuName : String) : String :=
  if cpuName = "x86_64" then "x64"
  else if cpuName = "x86" then "ia32"
  else if cpuName = "aarch64" then "arm64"
  else if cpuName = "arm" then "arm"
  else cpuName

/-- Strip a leading `!` from a constraint token. -/
def dropBang (s : String) : Option String :=
  match s.data with
  | '!' :: rest => some (String.mk rest)
  | _ => none

/-- Model of `constraint_allows_current`: no constraints allows everything;
otherwise the current platform must avoid every negative token and, when any
positive token exists, match one of them. -/
def constraintAllowsCurrent (constraints : List String) (current : String) : Bool :=
  if constraints = [] then true
  else
    let negative := constraints.filterMap dropBang
    let positive := constraints.filter fun r => (dropBang r).isNone
    if negative.any (· == current) then false
    else if positive = [] then true
    else positive.any (· == current)

/-- Model of `validate_package_constraints`: engines check (only when a node
version was detected), then OS, then CPU. -/
def validatePackageConstraints (env : Env) (p : PackageInfo) : Except String Unit :=
  let enginesOk : Except String Unit :=
    match p.enginesNode, env.nodeVersion with
    | some nodeReq, some nodeVersion =>
      if !nodeReq.matches nodeVersion then
        .error (p.name ++ " requires node " ++ nodeReq.display ++ ", current is " ++ nodeVersion.text)
      else .ok ()
    | _, _ => .ok ()
  match enginesOk with
  | .error e => .error e
  | .ok () =>
    let os := canonicalOs env.os
    if !constraintAllowsCurrent p.osConstraints os then
      .error (p.name ++ " is not supported on os " ++ os)
    else
      let cpu := canonicalCpu env.cpu
      if !constraintAllowsCurrent p.cpuConstraints cpu then
        .error (p.name ++ " is not supported on cpu " ++ cpu)
      else .ok ()

/-- Outcome of one installer job. -/
inductive InstallOutcome where
  | skippedOptional
  | workspaceLinked
  | extracted
  | failed (reason : String)
deriving DecidableEq

/-- Model of `download_and_extract_package` with network, cache and
filesystem IO abstracted as succeeding: a package failing platform or engine
validation is skipped when optional (nothing is extracted for it) and fails
the job otherwise; a workspace package is linked; any other package is
downloaded, verified and extracted into `node_modules/<name>`. -/
def downloadAndExtractOutcome (env : Env) (p : ResolvedPackage) : InstallOutcome :=
  match validatePackageConstraints env p.info with
  | .error reason => if p.optional then .skippedOptional else .failed reason
  | .ok () => if p.info.isWorkspace then .workspaceLinked else .extracted

/-- Failure reason of an outcome, if any. -/
def outcomeFailure : InstallOutcome → Option String
  | .failed r => some r
  | _ => none

/-- Model of `install_packages_parallel`: the first failing job aborts the
install, otherwise the number of packages actually placed on disk is
returned (skipped optional packages do not count).  Depth bands and the
semaphore only affect scheduling, not this outcome. -/
def installPackagesOutcome (env : Env) (packages : List ResolvedPackage) : Except String Nat :=
  match packages.filterMap (fun p => outcomeFailure (downloadAndExtractOutcome env p)) with
  | e :: _ => .error e
  | [] =>
    .ok (packages.filter fun p =>
      match downloadAndExtractOutcome env p with
      | .extracted => true
      | .workspaceLinked => true
      | _ => false).length

/-- Names extracted into `node_modules/` by an install run. -/
def extractedNames (env : Env) (packages : List ResolvedPackage) : List String :=
  (packages.filter fun p =>
    match downloadAndExtractOutcome env p with
    | .extracted => true
    | .workspaceLinked => true
    | _ => false).map fun p => p.info.name

/-- Insert into a list sorted descending by `le`: the new element goes in
front of the first element it dominates. -/
def insertDescBy (le : α → α → Bool) (x : α) : List α → List α
  | [] => [x]
  | y :: ys => if le y x then x :: y :: ys else y :: insertDescBy le x ys

/-- Insertion sort into descending order, the model of
`sort_by(|a, b| b.cmp(a))`. -/
def sortDescBy (le : α → α → Bool) : List α → List α
  | [] => []
  | x :: xs => insertDescBy le x (sortDescBy le xs)

/-- Registry keys that parse as semver and satisfy the requirement, as
collected at the top of `find_best_version`. -/
def matchingVersions (availableVersions : List String) (requirement : NpmVersionReq) : List SemVer :=
  (availableVersions.filterMap SemVer.parse).filter fun v => requirement.matches v

/-- Greatest element of the matching list: sort descending, take the first;
empty means failure. -/
def pickGreatest (matching : List SemVer) : Except String SemVer :=
  match (sortDescBy semverLeB matching).head? with
  | some v => .ok v
  | none => .error "No matching version found"

/-- Model of `DependencyResolver::find_best_version`: a locked version wins
only when it is itself among the parsed matching registry keys; otherwise
the greatest matching version is picked. -/
def findBestVersion (availableVersions : List String) (requirement : NpmVersionReq)
    (locked : Option SemVer) : Except String SemVer :=
  let matching := matchingVersions availableVersions requirement
  match locked with
  | some l => if matching.any (fun v => v == l) then .ok l else pickGreatest matching
  | none => pickGreatest matching

/-- One version's metadata in a registry document, the fields
`fetch_package_metadata` extracts.  Requirement texts are raw strings, parsed
on extraction exactly as the source does. -/
structure RegVersion where
  dependencies : List (String × String)
  peerDependencies : List (String × String)
  optionalDependencies : List (String × String)
  tarball : Option String
  shasum : Option String
  integrity : Option String
  enginesNode : Option String
  os : List String
  cpu : List String
  scripts : List (String × String)
  bin : List (String × String)
deriving DecidableEq

/-- A registry: per package name, the `versions` object (version key to
metadata).  A missing name models a fetch whose body has no `versions`. -/
abbrev Registry := List (String × List (String × RegVersion))

/-- Requirement parsed with the source's fallback: a clause that fails to
parse degrades to the any-requirement (with a warning in the source). -/
def npmReqOrAny (s : String) : NpmVersionReq :=
  match NpmVersionReq.parse s with
  | .ok r => r
  | .error _ =>
    match NpmVersionReq.any with
    | .ok a => a
    | .error _ => ⟨"*", [[]]⟩

/-- Parse a dependency map of raw requirement texts. -/
def parseDepMap (deps : List (String × String)) : List (String × NpmVersionReq) :=
  deps.map fun d => (d.1, npmReqOrAny d.2)

/-- Lifecycle scripts extracted from a `scripts` object: only `preinstall`,
`install` and `postinstall` are kept, in that order. -/
def extractLifecycleScripts (scripts : List (String × String)) : List (String × String) :=
  (["preinstall", "install", "postinstall"]).filterMap fun k =>
    (assocLookup k scripts).map fun cmd => (k, cmd)

/-- A local workspace package registered from the root manifest. -/
structure WorkspacePackage where
  version : SemVer
  path : String
deriving DecidableEq

/-- Registry part of `fetch_package_metadata`: select the best version among
the document's keys and extract the `PackageInfo` fields from its entry. -/
def fetchFromRegistry (registry : Registry) (name : String) (versionReq : NpmVersionReq)
    (locked : Option SemVer) : Except String PackageInfo :=
  match assocLookup name registry with
  | none => .error "No versions found"
  | some versions =>
    match findBestVersion (versions.map (·.1)) versionReq locked with
    | .error e => .error e
    | .ok best =>
      match assocLookup best.text versions with
      | none => .error "No tarball URL found"
      | some vi =>
        match vi.tarball with
        | none => .error "No tarball URL found"
        | some tarballUrl =>
          .ok { name := name
                version := best
                dependencies := parseDepMap vi.dependencies
                peerDependencies := parseDepMap vi.peerDependencies
                optionalDependencies := parseDepMap vi.optionalDependencies
                tarballUrl := tarballUrl
                integrity := vi.integrity
                shasum := vi.shasum
                isWorkspace := false
                workspacePath := none
                enginesNode := vi.enginesNode.bind fun s => (NpmVersionReq.parse s).toOption
                osConstraints := vi.os
                cpuConstraints := vi.cpu
                lifecycleScripts := extractLifecycleScripts vi.scripts
                binEntries := vi.bin }

/-- Model of `fetch_package_metadata`: a registered workspace whose version
satisfies the requirement short-circuits to a synthetic workspace
`PackageInfo`; otherwise the registry is consulted. -/
def fetchPackageMetadata (workspaces : List (String × WorkspacePackage)) (registry : Registry)
    (name : String) (versionReq : NpmVersionReq) (locked : Option SemVer) :
    Except String PackageInfo :=
  match assocLookup name workspaces with
  | some w =>
    if versionReq.matches w.version then
      .ok { name := name
            version := w.version
            dependencies := []
            peerDependencies := []
            optionalDependencies := []
            tarballUrl := ""
            integrity := none
            shasum := none
            isWorkspace := true
            workspacePath := some w.path
            enginesNode := none
            osConstraints := []
            cpuConstraints := []
            lifecycleScripts := []
            binEntries := [] }
    else fetchFromRegistry registry name versionReq locked
  | none => fetchFromRegistry registry name versionReq locked

/-- State threaded through the resolver's BFS loop: the committed
`(version, depth)` per name, the accepted packages per name, and the
conflict log. -/
structure ResolverState where
  resolved : List (String × (SemVer × Nat))
  packages : List (String × ResolvedPackage)
  conflicts : List String
deriving DecidableEq

/-- Conflict record text from the resolver. -/
def conflictMessage (name : String) (req : NpmVersionReq) (v : SemVer) : String :=
  "Version conflict for " ++ name ++ ": " ++ req.display ++ " vs " ++ v.text

/-- Conflict record text for a dropped optional dependency. -/
def optionalSkipMessage (name : String) (req : NpmVersionReq) (err : String) : String :=
  "Skipping optional dependency " ++ name ++ " (" ++ req.display ++ "): " ++ err

/-- What the BFS loop does with a work item whose name may already be
committed. -/
inductive QueueAction where
  | skip
  | conflict (msg : String)
  | proceed
deriving DecidableEq

/-- Decision at the head of the BFS loop, straight from the source: a
committed name is skipped when the requirement matches; it records a conflict
and is skipped when the item is not deeper than the commitment; in every
other case (including a deeper non-matching item) the loop falls through and
resolves the item afresh. -/
def queueAction (st : ResolverState) (name : String) (req : NpmVersionReq) (depth : Nat) :
    QueueAction :=
  match assocLookup name st.resolved with
  | some vd =>
    if req.matches vd.1 then .skip
    else if depth ≤ vd.2 then .conflict (conflictMessage name req vd.1)
    else .proceed
  | none => .proceed

/-- Work items enqueued for the dependencies of a freshly accepted package:
regular then peer dependencies as required edges, optional dependencies as
optional edges, all one level deeper. -/
def enqueueChildren (info : PackageInfo) (depth : Nat) :
    List (String × NpmVersionReq × Nat × Bool) :=
  info.dependencies.map (fun d => (d.1, d.2, depth + 1, false))
  ++ info.peerDependencies.map (fun d => (d.1, d.2, depth + 1, false))
  ++ info.optionalDependencies.map (fun d => (d.1, d.2, depth + 1, true))

/-- Commit a fetched package: overwrite the name's entries in both resolver
maps. -/
def commitState (st : ResolverState) (name : String) (info : PackageInfo) (depth : Nat)
    (isOptional : Bool) : ResolverState :=
  { st with
    resolved := assocUpdate name (info.version, depth) st.resolved
    packages := assocUpdate name ⟨info, depth, isOptional⟩ st.packages }

/-- The resolver's BFS loop (`resolve_dependencies`), with explicit fuel; the
source's loop can run unboundedly on adversarial registries, so the model
errors when fuel runs out with work left. -/
def resolveLoop (workspaces : List (String × WorkspacePackage)) (registry : Registry)
    (locked : List (String × SemVer)) :
    Nat → List (String × NpmVersionReq × Nat × Bool) → ResolverState →
    Except String ResolverState
  | 0, [], st => .ok st
  | 0, _ :: _, _ => .error "resolution fuel exhausted"
  | _ + 1, [], st => .ok st
  | fuel + 1, (name, req, depth, isOptional) :: rest, st =>
    match queueAction st name req depth with
    | .skip => resolveLoop workspaces registry locked fuel rest st
    | .conflict msg =>
      resolveLoop workspaces registry locked fuel rest
        { st with conflicts := st.conflicts ++ [msg] }
    | .proceed =>
      match fetchPackageMetadata workspaces registry name req (assocLookup name locked) with
      | .error err =>
        if isOptional then
          resolveLoop workspaces registry locked fuel rest
            { st with conflicts := st.conflicts ++ [optionalSkipMessage name req err] }
        else .error err
      | .ok info =>
        resolveLoop workspaces registry locked fuel (rest ++ enqueueChildren info depth)
          (commitState st name info depth isOptional)

/-- Stable insertion into a list sorted ascending by depth. -/
def insertByDepth (p : ResolvedPackage) : List ResolvedPackage → List ResolvedPackage
  | [] => [p]
  | q :: rest => if p.depth ≤ q.depth then p :: q :: rest else q :: insertByDepth p rest

/-- Stable ascending sort by depth, the model of `sort_by_key(|p| p.depth)`. -/
def sortPackagesByDepth : List ResolvedPackage → List ResolvedPackage
  | [] => []
  | p :: rest => insertByDepth p (sortPackagesByDepth rest)

/-- Model of `resolve_dependencies`: BFS from the root at depth 0 under the
any-requirement; returns the accepted packages sorted by ascending depth,
plus the conflict log. -/
def resolveDependencies (workspaces : List (String × WorkspacePackage)) (registry : Registry)
    (locked : List (String × SemVer)) (rootPackage : String) (fuel : Nat) :
    Except String (List ResolvedPackage × List String) :=
  match NpmVersionReq.any with
  | .error e => .error e
  | .ok anyReq =>
    match resolveLoop workspaces registry locked fuel
        [(rootPackage, anyReq, 0, false)] ⟨[], [], []⟩ with
    | .error e => .error e
    | .ok st => .ok (sortPackagesByDepth (st.packages.map (·.2)), st.conflicts)

/-- Insert into a key-sorted association list (the model of `BTreeMap`),
overwriting an existing key; keys order by `strCmp`, Rust's byte-wise string
order. -/
def smapInsert (k : String) (v : α) : List (String × α) → List (String × α)
  | [] => [(k, v)]
  | (k₀, v₀) :: rest =>
    if k = k₀ then (k, v) :: rest
    else if strCmp k k₀ = .lt then (k, v) :: (k₀, v₀) :: rest
    else (k₀, v₀) :: smapInsert k v rest

/-- Collect a sequence of pairs into a `BTreeMap` model; a later pair with
the same key overwrites an earlier one, as `collect::<BTreeMap<_, _>>`
does. -/
def smapOfList (l : List (String × α)) : List (String × α) :=
  l.foldl (fun m p => smapInsert p.1 p.2 m) []

/-- Model of a `packages` entry of the lockfile (`LockfilePackage`). -/
structure LockfilePackage where
  version : String
  resolved : String
  integrity : Option String
  dependencies : List (String × String)
  shasum : Option String
deriving DecidableEq

/-- Model of the whole lockfile document (`PackageLock`). -/
structure PackageLock where
  name : String
  version : String
  lockfileVersion : Nat
  requires : Bool
  dependencies : List (String × String)
  workspacePaths : List (String × String)
  packages : List (String × LockfilePackage)
deriving DecidableEq

/-- Dependency map written into a package's lockfile entry: regular, peer and
optional requirements, rendered with `display()`, collected into one ordered
map (later sources overwrite on key collision). -/
def lockDependenciesOf (p : PackageInfo) : List (String × String) :=
  smapOfList ((p.dependencies ++ p.peerDependencies ++ p.optionalDependencies).map
    fun d => (d.1, d.2.display))

/-- Model of `generate_lockfile`: the root entry under the empty key, then
one entry per resolved package under `node_modules/<name>`.  The manifest's
name, version and direct dependencies arrive as arguments (the source reads
package.json); absent name or version fall back to the source's defaults. -/
def generateLockfile (manifestName manifestVersion : Option String)
    (manifestDeps : List (String × String)) (workspacePaths : List (String × String))
    (packages : List ResolvedPackage) : PackageLock :=
  let rootName := manifestName.getD "rnp-project"
  let rootVersion := manifestVersion.getD "1.0.0"
  let rootDependencies := smapOfList manifestDeps
  let base := smapInsert "" ⟨rootVersion, "", none, rootDependencies, none⟩ []
  let lockPackages := packages.foldl
    (fun m p => smapInsert ("node_modules/" ++ p.info.name)
      ⟨p.info.version.text, p.info.tarballUrl, p.info.integrity,
        lockDependenciesOf p.info, p.info.shasum⟩ m)
    base
  { name := rootName
    version := rootVersion
    lockfileVersion := 1
    requires := true
    dependencies := rootDependencies
    workspacePaths := smapOfList workspacePaths
    packages := lockPackages }

/-- Suffix after the last occurrence of `node_modules/`, or `none` when the
pattern does not occur. -/
def afterNodeModulesChars : List Char → Option (List Char)
  | [] => none
  | 'n' :: 'o' :: 'd' :: 'e' :: '_' :: 'm' :: 'o' :: 'd' :: 'u' :: 'l' :: 'e' :: 's' :: '/' :: rest =>
    some ((afterNodeModulesChars rest).getD rest)
  | _ :: rest => afterNodeModulesChars rest

/-- Number of occurrences of `node_modules/`, the model of
`matches("node_modules/").count()`. -/
def countNodeModulesChars : List Char → Nat
  | [] => 0
  | 'n' :: 'o' :: 'd' :: 'e' :: '_' :: 'm' :: 'o' :: 'd' :: 'u' :: 'l' :: 'e' :: 's' :: '/' :: rest =>
    countNodeModulesChars rest + 1
  | _ :: rest => countNodeModulesChars rest

/-- Model of `lockfile_package_name`: the empty key is the root (no name), a
key containing `node_modules/` yields the suffix after its last occurrence,
any other key is itself the name. -/
def lockfilePackageName (pathKey : String) : Option String :=
  if pathKey = "" then none
  else
    match afterNodeModulesChars pathKey.data with
    | some r => some (String.mk r)
    | none => some pathKey

/-- Entry loop of `packages_from_lockfile`: root entries are skipped, an
unparsable version aborts, the depth is the number of `node_modules/`
occurrences in the key, and peer/optional requirements are not recovered. -/
def packagesFromLockfileEntries (wsPaths : List (String × String)) :
    List (String × LockfilePackage) → Except String (List ResolvedPackage)
  | [] => .ok []
  | (pathKey, locked) :: rest =>
    match lockfilePackageName pathKey with
    | none => packagesFromLockfileEntries wsPaths rest
    | some name =>
      match SemVer.parse locked.version with
      | none => .error ("invalid version in lockfile: " ++ locked.version)
      | some version =>
        let dependencies := locked.dependencies.filterMap fun d =>
          (NpmVersionReq.parse d.2).toOption.map fun r => (d.1, r)
        let depth := countNodeModulesChars pathKey.data
        let workspacePath := assocLookup name wsPaths
        let info : PackageInfo :=
          { name := name
            version := version
            dependencies := dependencies
            peerDependencies := []
            optionalDependencies := []
            tarballUrl := locked.resolved
            integrity := locked.integrity
            shasum := locked.shasum
            isWorkspace := workspacePath.isSome
            workspacePath := workspacePath
            enginesNode := none
            osConstraints := []
            cpuConstraints := []
            lifecycleScripts := []
            binEntries := [] }
        match packagesFromLockfileEntries wsPaths rest with
        | .error e => .error e
        | .ok ps => .ok (⟨info, depth, false⟩ :: ps)

/-- Model of `packages_from_lockfile`. -/
def packagesFromLockfile (lf : PackageLock) : Except String (List ResolvedPackage) :=
  packagesFromLockfileEntries lf.workspacePaths lf.packages

/-- Model of `ensure_lockfile_in_sync`: the comparison only happens for the
root manifest `package.json`; any other manifest path passes unchecked.  The
manifest's direct dependencies arrive as an argument (the source reads the
file). -/
def ensureLockfileInSync (lf : PackageLock) (manifestPath : String)
    (manifestDeps : List (String × String)) : Except String Unit :=
  if manifestPath ≠ "package.json" then .ok ()
  else if smapOfList manifestDeps = lf.dependencies then .ok ()
  else .error (manifestPath ++ " and package-lock.json are out of sync. Run rnp install first.")

/-- Model of `handle_ci_command_async`: returns the list of paths written
under `node_modules/` together with the run's result.  Every early-failure
path (missing lockfile, missing manifest, sync failure, unreadable lockfile
entries) performs no write. -/
def handleCiModel (env : Env) (lockfileExists : Bool) (lf : PackageLock)
    (manifestExists : Bool) (manifestPath : String)
    (manifestDeps : List (String × String)) : List String × Except String Unit :=
  if !lockfileExists then
    ([], .error "package-lock.json not found. rnp ci requires a lockfile.")
  else if !manifestExists then ([], .error (manifestPath ++ " not found"))
  else
    match ensureLockfileInSync lf manifestPath manifestDeps with
    | .error e => ([], .error e)
    | .ok () =>
      match packagesFromLockfile lf with
      | .error e => ([], .error e)
      | .ok packages =>
        if packages = [] then ([], .ok ())
        else
          match installPackagesOutcome env packages with
          | .error e => (packages.map (fun p => "node_modules/" ++ p.info.name), .error e)
          | .ok _ => (packages.map (fun p => "node_modules/" ++ p.info.name), .ok ())

/-- Erase a batch of keys from an association list. -/
def eraseKeys (names : List String) (m : List (String × α)) : List (String × α) :=
  names.foldl (fun acc n => assocErase n acc) m

/-- The four dependency maps of a manifest, as uninstall sees them. -/
structure ManifestModel where
  dependencies : List (String × String)
  devDependencies : List (String × String)
  peerDependencies : List (String × String)
  optionalDependencies : List (String × String)
deriving DecidableEq

/-- Project state touched by uninstall: the manifest, the names present
directly under `node_modules/`, and the lockfile's `packages` object when a
lockfile exists. -/
structure ProjectState where
  manifest : ManifestModel
  nodeModules : List String
  lockPackages : Option (List (String × LockfilePackage))
deriving DecidableEq

/-- Model of `handle_uninstall_command`: each listed name is removed from all
four dependency maps and from `node_modules/`; in the lockfile's `packages`
object the removal uses the bare package name as the key, exactly as the
source does. -/
def handleUninstall (names : List String) (st : ProjectState) : ProjectState :=
  { manifest :=
      { dependencies := eraseKeys names st.manifest.dependencies
        devDependencies := eraseKeys names st.manifest.devDependencies
        peerDependencies := eraseKeys names st.manifest.peerDependencies
        optionalDependencies := eraseKeys names st.manifest.optionalDependencies }
    nodeModules := st.nodeModules.filter fun n => !names.contains n
    lockPackages := st.lockPackages.map fun pkgs => eraseKeys names pkgs }

/-- Requirement built from literal text; the fallback (never hit for the
literals used below) matches nothing. -/
def reqOfText (t : String) : NpmVersionReq :=
  match NpmVersionReq.parse t with
  | .ok r => r
  | .error _ => ⟨t, []⟩

/-- Registry version entry with the given dependencies and tarball and no
other fields. -/
def regVersionWith (deps : List (String × String)) (turl : String) : RegVersion :=
  ⟨deps, [], [], some turl, none, none, none, [], [], [], []⟩

/-- Concrete registry in which a deeper work item displaces an earlier
commitment: the root needs `a ^1.0.0` and `b *`, and `b` needs `a ^2.0.0`. -/
def registryDisplace : Registry :=
  [ ("root", [("1.0.0", regVersionWith [("a", "^1.0.0"), ("b", "*")] "https://reg/root.tgz")])
  , ("a", [ ("1.0.0", regVersionWith [] "https://reg/a1.tgz")
          , ("2.0.0", regVersionWith [] "https://reg/a2.tgz") ])
  , ("b", [("1.0.0", regVersionWith [("a", "^2.0.0")] "https://reg/b1.tgz")]) ]

/-- Resolver state in which `a` is committed at version 1.0.0, depth 1. -/
def stateCommittedA : ResolverState :=
  ⟨[("a", (⟨1, 0, 0, []⟩, 1))], [], []⟩

/-- Concrete optional package whose `os` constraint rejects a linux host. -/
def fseventsPkg : ResolvedPackage :=
  { info :=
      { name := "fsevents"
        version := ⟨2, 3, 2, []⟩
        dependencies := []
        peerDependencies := []
        optionalDependencies := []
        tarballUrl := "https://registry.npmjs.org/fsevents/-/fsevents-2.3.2.tgz"
        integrity := none
        shasum := some "8a526f78b8fdf4623b709e0b975c52c24c02fd1a"
        isWorkspace := false
        workspacePath := none
        enginesNode := none
        osConstraints := ["darwin"]
        cpuConstraints := []
        lifecycleScripts := []
        binEntries := [] }
    depth := 1
    optional := true }

/-- A linux x64 host with no detected node version. -/
def linuxEnv : Env := ⟨"linux", "x86_64", none⟩

/-- Concrete resolved package for the uninstall scenario. -/
def lodashPkg : ResolvedPackage :=
  { info :=
      { name := "lodash"
        version := ⟨4, 17, 21, []⟩
        dependencies := []
        peerDependencies := []
        optionalDependencies := []
        tarballUrl := "https://registry.npmjs.org/lodash/-/lodash-4.17.21.tgz"
        integrity := none
        shasum := some "679591c564c3bffaae8454cf0b3df370c3d6911c"
        isWorkspace := false
        workspacePath := none
        enginesNode := none
        osConstraints := []
        cpuConstraints := []
        lifecycleScripts := []
        binEntries := [] }
    depth := 0
    optional := false }

/-- Project state just after installing lodash: manifest lists it, it sits in
`node_modules/`, and the lockfile generator has recorded it. -/
def lodashState : ProjectState :=
  { manifest := ⟨[("lodash", "^4.17.21")], [], [], []⟩
    nodeModules := ["lodash"]
    lockPackages := some (generateLockfile (some "demo") (some "1.0.0")
      [("lodash", "^4.17.21")] [] [lodashPkg]).packages }

/-- Lockfile used in the ci scenarios: one recorded package, empty root
dependency map. -/
def ciLockfile : PackageLock :=
  generateLockfile (some "demo") (some "1.0.0") [] [] [lodashPkg]

theorem assocLookup_update_self (k : String) (v : α) (l : List (String × α)) :
    assocLookup k (assocUpdate k v l) = some v := by
  induction l with
  | nil => simp [assocUpdate, assocLookup]
  | cons hd tl ih =>
    obtain ⟨k₀, v₀⟩ := hd
    by_cases h : k₀ = k
    · subst h
      simp [assocUpdate, assocLookup]
    · simp [assocUpdate, assocLookup, h, ih]

theorem assocLookup_elapse (t : Nat) (k : String) (store : CacheStore) :
    assocLookup k (elapseCache t store)
      = (assocLookup k store).map fun e => ⟨e.data, e.age + t⟩ := by
  induction store with
  | nil => simp [elapseCache, assocLookup]
  | cons hd tl ih =>
    obtain ⟨k₀, e₀⟩ := hd
    by_cases h : k₀ = k
    · subst h
      simp [elapseCache, assocLookup]
    · simpa [elapseCache, assocLookup, h] using ih

theorem eqIgnoreAsciiCase_self (s : String) : eqIgnoreAsciiCase s s = true := by
  unfold eqIgnoreAsciiCase
  simp only [beq_self_eq_true, Bool.true_and]
  induction s.data with
  | nil => rfl
  | cons c cs ih => simp [List.zip, ih]

/-- C3: `get_valid_tarball` returns the stored bytes exactly when the blob
exists, is no older than `maxAge`, and (when an expected SHA-1 is given)
passes the case-insensitive hex SHA-1 comparison; a blob that exists but is
stale or fails the checksum is deleted and `none` is returned, and a missing
blob leaves the cache untouched. -/
theorem get_valid_tarball_spec (sha1 : List Nat → List Nat) (sha256hex : String → String)
    (store : CacheStore) (name version : String) (expectedSha1 : Option String)
    (maxAge : Nat) :
    (assocLookup (cacheBlobName sha256hex name version) store = none →
      getValidTarball sha1 sha256hex store name version expectedSha1 maxAge = (none, store))
    ∧ (∀ e, assocLookup (cacheBlobName sha256hex name version) store = some e →
        ¬ e.age ≤ maxAge →
        getValidTarball sha1 sha256hex store name version expectedSha1 maxAge
          = (none, invalidateTarball sha256hex store name version))
    ∧ (∀ e s, assocLookup (cacheBlobName sha256hex name version) store = some e →
        e.age ≤ maxAge → expectedSha1 = some s → verifySha1Checksum sha1 e.data s = false →
        getValidTarball sha1 sha256hex store name version expectedSha1 maxAge
          = (none, invalidateTarball sha256hex store name version))
    ∧ (∀ e, assocLookup (cacheBlobName sha256hex name version) store = some e →
        e.age ≤ maxAge →
        (expectedSha1 = none ∨ ∃ s, expectedSha1 = some s ∧ verifySha1Checksum sha1 e.data s = true) →
        getValidTarball sha1 sha256hex store name version expectedSha1 maxAge
          = (some e.data, store))
    ∧ (∀ d, (getValidTarball sha1 sha256hex store name version expectedSha1 maxAge).1 = some d →
        ∃ e, assocLookup (cacheBlobName sha256hex name version) store = some e
          ∧ d = e.data ∧ e.age ≤ maxAge
          ∧ ∀ s, expectedSha1 = some s → verifySha1Checksum sha1 e.data s = true) := by
  refine ⟨?_, ?_, ?_, ?_, ?_⟩
  · intro h
    simp [getValidTarball, h]
  · intro e he hstale
    simp [getValidTarball, he, cacheIsFresh, hstale]
  · intro e s he hfresh hexp hsha
    subst hexp
    simp [getValidTarball, he, cacheIsFresh, hfresh, hsha]
  · intro e he hfresh hok
    rcases hok with h | ⟨s, hs, hsha⟩
    · subst h
      simp [getValidTarball, he, cacheIsFresh, hfresh]
    · subst hs
      simp [getValidTarball, he, cacheIsFresh, hfresh, hsha]
  · intro d hd
    cases he : assocLookup (cacheBlobName sha256hex name version) store with
    | none => simp [getValidTarball, he] at hd
    | some e =>
      refine ⟨e, rfl, ?_⟩
      by_cases hfresh : e.age ≤ maxAge
      · cases hexp : expectedSha1 with
        | none =>
          simp [getValidTarball, he, cacheIsFresh, hfresh, hexp] at hd
          exact ⟨hd.symm, hfresh, by simp [hexp]⟩
        | some s =>
          by_cases hsha : verifySha1Checksum sha1 e.data s
          · simp [getValidTarball, he, cacheIsFresh, hfresh, hexp, hsha] at hd
            exact ⟨hd.symm, hfresh, by simp [hexp, hsha]⟩
          · simp [getValidTarball, he, cacheIsFresh, hfresh, hexp, hsha] at hd
      · simp [getValidTarball, he, cacheIsFresh, hfresh] at hd

theorem get_valid_tarball_spec_witness :
    getValidTarball (fun _ => [0]) (fun _ => "k") [("k.tgz", ⟨[1, 2], 3⟩)]
      "a" "1.0.0" (some "00") 10 = (some [1, 2], [("k.tgz", ⟨[1, 2], 3⟩)]) := by
  exact (get_valid_tarball_spec (fun _ => [0]) (fun _ => "k") [("k.tgz", ⟨[1, 2], 3⟩)]
    "a" "1.0.0" (some "00") 10).2.2.2.1 ⟨[1, 2], 3⟩ rfl (by decide)
    (Or.inr ⟨"00", rfl, by decide⟩)

/-- C10: immediately after `save_tarball`, a `get_valid_tarball` with the
lowercase hex SHA-1 of the saved bytes and any `maxAge` at least the elapsed
time returns exactly the saved bytes. -/
theorem cache_round_trip (sha1 : List Nat → List Nat) (sha256hex : String → String)
    (store : CacheStore) (name version : String) (data : List Nat) (t maxAge : Nat)
    (h : t ≤ maxAge) :
    (getValidTarball sha1 sha256hex
        (elapseCache t (saveTarball sha256hex store name version data))
        name version (some (hexLower (sha1 data))) maxAge).1 = some data := by
  have hkey : assocLookup (cacheBlobName sha256hex name version)
      (elapseCache t (saveTarball sha256hex store name version data))
      = some ⟨data, 0 + t⟩ := by
    rw [assocLookup_elapse, saveTarball, assocLookup_update_self]
    rfl
  have hsha : verifySha1Checksum sha1 data (hexLower (sha1 data)) = true :=
    eqIgnoreAsciiCase_self _
  simp [getValidTarball, hkey, cacheIsFresh, Nat.zero_add, h, hsha]

theorem cache_round_trip_witness :
    (getValidTarball (fun _ => [255]) (fun s => s)
        (elapseCache 2 (saveTarball (fun s => s) [] "left-pad" "1.3.0" [7, 8, 9]))
        "left-pad" "1.3.0" (some (hexLower [255])) 5).1 = some [7, 8, 9] := by
  exact cache_round_trip (fun _ => [255]) (fun s => s) [] "left-pad" "1.3.0"
    [7, 8, 9] 2 5 (by decide)

theorem dropSha512Tag_some_iff (s r : String) :
    dropSha512Tag s = some r ↔ s = "sha512-" ++ r := by
  constructor
  · intro h
    unfold dropSha512Tag at h
    split at h
    · rename_i rest heq
      cases s with
      | mk data =>
        cases r with
        | mk rdata =>
          simp only [Option.some.injEq] at h
          have hr : rest = rdata := congrArg String.data h
          simp only [String.data] at heq
          subst heq
          subst hr
          rfl
    · exact absurd h (by simp)
  · intro h
    subst h
    cases r with
    | mk rdata => rfl

theorem string_append_left_cancel {a b : String} (p : String)
    (h : p ++ a = p ++ b) : a = b := by
  have hd : p.data ++ a.data = p.data ++ b.data := congrArg String.data h
  have h2 : a.data = b.data := List.append_cancel_left hd
  cases a
  cases b
  exact congrArg String.mk h2

/-- C6: `verify_tarball_integrity` accepts exactly when: an `integrity` field
carries the `sha512-` marker and its base64-decoded remainder equals the
SHA-512 of the blob; otherwise a `shasum` field equals the lowercase hex
SHA-1 under case-insensitive comparison; otherwise always.  With an
`integrity` field present the `shasum` field is never consulted, and every
non-accepting case is an error. -/
theorem verify_tarball_integrity_spec (sha512 : List Nat → List Nat)
    (b64decode : String → Option (List Nat)) (sha1 : List Nat → List Nat)
    (p : PackageInfo) (data : List Nat) :
    (verifyTarballIntegrity sha512 b64decode sha1 p data = .ok () ↔
      (match p.integrity with
       | some integrity =>
         ∃ enc, integrity = "sha512-" ++ enc ∧ b64decode enc = some (sha512 data)
       | none =>
         match p.shasum with
         | some expected => eqIgnoreAsciiCase (hexLower (sha1 data)) expected = true
         | none => True))
    ∧ (∀ s₁ s₂, p.integrity.isSome →
        verifyTarballIntegrity sha512 b64decode sha1 { p with shasum := s₁ } data
          = verifyTarballIntegrity sha512 b64decode sha1 { p with shasum := s₂ } data)
    ∧ (verifyTarballIntegrity sha512 b64decode sha1 p data ≠ .ok () →
        ∃ e, verifyTarballIntegrity sha512 b64decode sha1 p data = .error e) := by
  refine ⟨?_, ?_, ?_⟩
  · cases hint : p.integrity with
    | some integrity =>
      simp only [verifyTarballIntegrity, hint]
      cases hdrop : dropSha512Tag integrity with
      | none =>
        simp only [verifyIntegritySha512, hdrop]
        constructor
        · intro h
          simp at h
        · rintro ⟨enc, henc, _⟩
          rw [(dropSha512Tag_some_iff integrity enc).mpr henc] at hdrop
          exact absurd hdrop (by simp)
      | some enc₀ =>
        have hi : integrity = "sha512-" ++ enc₀ := (dropSha512Tag_some_iff integrity enc₀).mp hdrop
        simp only [verifyIntegritySha512, hdrop]
        cases hb : b64decode enc₀ with
        | none =>
          constructor
          · intro h
            simp at h
          · rintro ⟨enc, henc, hbe⟩
            have : enc = enc₀ := string_append_left_cancel "sha512-" (hi ▸ henc.symm)
            subst this
            rw [hb] at hbe
            exact absurd hbe (by simp)
        | some expected =>
          constructor
          · intro h
            by_cases hbeq : (sha512 data == expected) = true
            · exact ⟨enc₀, hi, by rw [hb, eq_of_beq hbeq]⟩
            · simp [hbeq] at h
          · rintro ⟨enc, henc, hbe⟩
            have : enc = enc₀ := string_append_left_cancel "sha512-" (hi ▸ henc.symm)
            subst this
            rw [hb] at hbe
            have hexp : expected = sha512 data := Option.some.inj hbe
            simp [hexp]
    | none =>
      cases hsh : p.shasum with
      | some expected =>
        simp only [verifyTarballIntegrity, hint, hsh, verifySha1Checksum]
        constructor
        · intro h
          by_cases hc : eqIgnoreAsciiCase (hexLower (sha1 data)) expected = true
          · exact hc
          · simp [hc] at h
        · intro h
          simp [h]
      | none => simp [verifyTarballIntegrity, hint, hsh]
  · intro s₁ s₂ hsome
    cases hint : p.integrity with
    | some integrity => simp [verifyTarballIntegrity, hint]
    | none => rw [hint] at hsome; simp at hsome
  · intro h
    cases hres : verifyTarballIntegrity sha512 b64decode sha1 p data with
    | ok u => cases u; exact absurd hres h
    | error e => exact ⟨e, rfl⟩

theorem verify_tarball_integrity_spec_witness :
    verifyTarballIntegrity (fun _ => [1]) (fun _ => some [1]) (fun _ => [0])
      { name := "x", version := ⟨1, 0, 0, []⟩, dependencies := [], peerDependencies := [],
        optionalDependencies := [], tarballUrl := "", integrity := some "sha512-AQ==",
        shasum := some "ff", isWorkspace := false, workspacePath := none, enginesNode := none,
        osConstraints := [], cpuConstraints := [], lifecycleScripts := [], binEntries := [] }
      [9] = .ok ()
    ∧ ("sha512-AQ==" : String) = "sha512-" ++ "AQ==" := by
  constructor
  · exact (verify_tarball_integrity_spec (fun _ => [1]) (fun _ => some [1]) (fun _ => [0])
      { name := "x", version := ⟨1, 0, 0, []⟩, dependencies := [], peerDependencies := [],
        optionalDependencies := [], tarballUrl := "", integrity := some "sha512-AQ==",
        shasum := some "ff", isWorkspace := false, workspacePath := none, enginesNode := none,
        osConstraints := [], cpuConstraints := [], lifecycleScripts := [], binEntries := [] }
      [9]).1.mpr ⟨"AQ==", rfl, rfl⟩
  · rfl

/-- C5: the code violates NPM exact-clause semantics.  A bare version
requirement text `1.2.3` is handed unchanged to the semver-crate parser,
whose default operator is caret (Cargo semantics), so the parsed requirement
also matches 1.5.0, a version different from 1.2.3; NPM's interpretation of
the exact clause would match only 1.2.3 itself. -/
theorem bare_exact_clause_matches_nonequal_version :
    (NpmVersionReq.parse "1.2.3").map (fun r => r.matches ⟨1, 5, 0, []⟩) = .ok true
    ∧ (NpmVersionReq.parse "1.2.3").map (fun r => r.matches ⟨1, 2, 3, []⟩) = .ok true
    ∧ (NpmVersionReq.parse "1.2.3").map (fun r => r.matches ⟨2, 0, 0, []⟩) = .ok false
    ∧ ((⟨1, 5, 0, []⟩ : SemVer) == ⟨1, 2, 3, []⟩) = false :=
  ⟨rfl, rfl, rfl, by decide⟩

/-- C8 counterexample: parsing succeeds on the empty and on whitespace-padded
texts, but `display` returns the substituted or trimmed text, not the
original input. -/
theorem display_empty_input_changed :
    (NpmVersionReq.parse "").map NpmVersionReq.display = .ok "*"
    ∧ (("*" : String) == "") = false
    ∧ (NpmVersionReq.parse " 1.2.3 ").map NpmVersionReq.display = .ok "1.2.3"
    ∧ (("1.2.3" : String) == " 1.2.3 ") = false :=
  ⟨rfl, by decide, rfl, by decide⟩

theorem parse_ok_raw (t : String) (r : NpmVersionReq) (h : NpmVersionReq.parse t = .ok r) :
    r.raw = String.mk (if trimChars t.data = [] then ['*'] else trimChars t.data) := by
  simp only [NpmVersionReq.parse] at h
  split at h
  · exact absurd h (by simp)
  · rw [Except.ok.injEq] at h
    rw [← h]

/-- C8 amended: `display` returns the trimmed input text, with empty or
whitespace-only input replaced by `*`; in particular the input is echoed
unchanged exactly when it is non-empty and carries no surrounding
whitespace. -/
theorem display_returns_trimmed_raw :
    ∀ (t : String) (r : NpmVersionReq), NpmVersionReq.parse t = .ok r →
      (r.display = if trimChars t.data = [] then "*" else String.mk (trimChars t.data))
      ∧ (trimChars t.data = t.data → t ≠ "" → r.display = t) := by
  intro t r h
  have hraw := parse_ok_raw t r h
  constructor
  · rw [NpmVersionReq.display, hraw]
    by_cases he : trimChars t.data = []
    · simp [he]
    · simp [he]
  · intro htrim hne
    rw [NpmVersionReq.display, hraw, htrim]
    have hne3 : t.data ≠ [] := by
      intro hd
      apply hne
      cases t with
      | mk data =>
        simp only [String.data] at hd
        rw [hd]
    rw [if_neg hne3]

theorem display_returns_trimmed_raw_witness :
    (reqOfText "^4.17.21").display = "^4.17.21" :=
  (display_returns_trimmed_raw "^4.17.21" (reqOfText "^4.17.21") rfl).2 rfl (by decide)

theorem assocLookup_smapInsert_self (k : String) (v : α) (m : List (String × α)) :
    assocLookup k (smapInsert k v m) = some v := by
  induction m with
  | nil => simp [smapInsert, assocLookup]
  | cons hd tl ih =>
    obtain ⟨k₀, v₀⟩ := hd
    by_cases h : k = k₀
    · simp [smapInsert, h, assocLookup]
    · by_cases hlt : strCmp k k₀ = .lt
      · simp [smapInsert, h, hlt, assocLookup]
      · simp [smapInsert, h, hlt, assocLookup, Ne.symm h, ih]

theorem assocLookup_smapInsert_isSome (k k₂ : String) (v : α) (m : List (String × α))
    (h : (assocLookup k m).isSome = true) :
    (assocLookup k (smapInsert k₂ v m)).isSome = true := by
  by_cases hk : k₂ = k
  · subst hk
    rw [assocLookup_smapInsert_self]
    rfl
  · induction m with
    | nil => simp [assocLookup] at h
    | cons hd tl ih =>
      obtain ⟨k₀, v₀⟩ := hd
      by_cases he : k₂ = k₀
      · subst he
        have hne : ¬ k₂ = k := hk
        simp only [assocLookup, if_neg hne] at h
        simp [smapInsert, assocLookup, if_neg hne, h]
      · by_cases hlt : strCmp k₂ k₀ = .lt
        · simp only [smapInsert, if_neg he, if_pos hlt]
          simp only [assocLookup, if_neg hk] at h ⊢
          exact h
        · simp only [smapInsert, if_neg he, if_neg hlt]
          by_cases hk0 : k₀ = k
          · simp only [assocLookup, if_pos hk0] at h ⊢
            exact h
          · simp only [assocLookup, if_neg hk0] at h ⊢
            exact ih h

theorem assocLookup_foldl_smapInsert {β : Type} (key : β → String) (val : β → α) :
    ∀ (l : List β) (init : List (String × α)) (k : String),
      ((∃ q ∈ l, key q = k) ∨ (assocLookup k init).isSome = true) →
      (assocLookup k (l.foldl (fun m q => smapInsert (key q) (val q) m) init)).isSome = true := by
  intro l
  induction l with
  | nil =>
    intro init k h
    rcases h with ⟨q, hq, _⟩ | h
    · simp at hq
    · simpa using h
  | cons b bs ih =>
    intro init k h
    rw [List.foldl_cons]
    apply ih
    rcases h with ⟨q, hq, hk⟩ | h
    · rcases List.mem_cons.mp hq with rfl | hmem
      · right
        rw [← hk, assocLookup_smapInsert_self]
        rfl
      · left
        exact ⟨q, hmem, hk⟩
    · right
      exact assocLookup_smapInsert_isSome _ _ _ _ h

/-- C2 counterexample: the optional `fsevents` package fails OS validation on
a linux host; the install completes successfully without extracting it, yet
its entry is present in the lockfile written from the resolver output. -/
theorem optional_invalid_package_in_lockfile_example :
    downloadAndExtractOutcome linuxEnv fseventsPkg = .skippedOptional
    ∧ installPackagesOutcome linuxEnv [fseventsPkg] = .ok 0
    ∧ extractedNames linuxEnv [fseventsPkg] = []
    ∧ (assocLookup "node_modules/fsevents"
        (generateLockfile (some "demo") (some "1.0.0") [("fsevents", "^2.3.2")] []
          [fseventsPkg]).packages).isSome = true :=
  ⟨rfl, rfl, rfl, rfl⟩

/-- C2 amended: a resolved package reached via an optional edge that fails
platform or engine validation is skipped by its installer job (the install
completes without extracting it), but its entry is still written to
`package-lock.json`, because the lockfile is generated from the unfiltered
resolver output. -/
theorem optional_invalid_package_skipped_but_locked :
    ∀ (env : Env) (packages : List ResolvedPackage) (p : ResolvedPackage)
      (manifestName manifestVersion : Option String)
      (manifestDeps workspacePaths : List (String × String)) (reason : String),
      p ∈ packages → p.optional = true →
      validatePackageConstraints env p.info = .error reason →
      downloadAndExtractOutcome env p = .skippedOptional
      ∧ (assocLookup ("node_modules/" ++ p.info.name)
          (generateLockfile manifestName manifestVersion manifestDeps workspacePaths
            packages).packages).isSome = true := by
  intro env packages p mn mv mdeps wsp reason hmem hopt hval
  constructor
  · simp [downloadAndExtractOutcome, hval, hopt]
  · simp only [generateLockfile]
    exact assocLookup_foldl_smapInsert _ _ packages _ _ (Or.inl ⟨p, hmem, rfl⟩)

theorem optional_invalid_package_skipped_but_locked_witness :
    downloadAndExtractOutcome linuxEnv fseventsPkg = .skippedOptional
    ∧ (assocLookup ("node_modules/" ++ fseventsPkg.info.name)
        (generateLockfile (some "demo") (some "1.0.0") [("fsevents", "^2.3.2")] []
          [fseventsPkg]).packages).isSome = true :=
  optional_invalid_package_skipped_but_locked linuxEnv [fseventsPkg] fseventsPkg
    (some "demo") (some "1.0.0") [("fsevents", "^2.3.2")] []
    "fsevents is not supported on os linux" (by simp) rfl (by rfl)

/-- C9: the code contradicts the intended lockfile cleanup.  Uninstall
removes the name from all four manifest maps and deletes the
`node_modules/lodash` directory, but it removes the lockfile `packages` entry
under the bare key `lodash`, while the install lockfile generator writes the
entry under `node_modules/lodash`; the entry therefore survives the
uninstall. -/
theorem uninstall_leaves_lockfile_entry :
    assocLookup "lodash" (handleUninstall ["lodash"] lodashState).manifest.dependencies = none
    ∧ (handleUninstall ["lodash"] lodashState).nodeModules = []
    ∧ (assocLookup "node_modules/lodash"
        (lodashState.lockPackages.getD [])).isSome = true
    ∧ (assocLookup "node_modules/lodash"
        ((handleUninstall ["lodash"] lodashState).lockPackages.getD [])).isSome = true :=
  ⟨rfl, rfl, rfl, rfl⟩

/-- C7 counterexample: with a workspace manifest selected, the manifest's
dependency map differs from the lockfile's root dependency map, yet the ci
run skips the sync check, succeeds, and writes under `node_modules/`. -/
theorem ci_workspace_manifest_skips_sync_check :
    (smapOfList [("left-pad", "^1.3.0")] == ciLockfile.dependencies) = false
    ∧ ensureLockfileInSync ciLockfile "packages/app/package.json" [("left-pad", "^1.3.0")]
        = .ok ()
    ∧ handleCiModel linuxEnv true ciLockfile true "packages/app/package.json"
        [("left-pad", "^1.3.0")] = (["node_modules/lodash"], .ok ()) :=
  ⟨by decide, rfl, rfl⟩

/-- C7 amended: in ci mode with the root manifest `package.json` (no
workspace selected), a manifest whose direct dependency map differs from the
lockfile's root dependency map fails with the out-of-sync error before any
filesystem write; with a workspace manifest the comparison is skipped
entirely. -/
theorem ci_root_manifest_out_of_sync_fails :
    ∀ (env : Env) (lf : PackageLock) (manifestDeps : List (String × String)),
      smapOfList manifestDeps ≠ lf.dependencies →
      ∃ e, handleCiModel env true lf true "package.json" manifestDeps = ([], .error e) := by
  intro env lf manifestDeps h
  refine ⟨"package.json" ++ " and package-lock.json are out of sync. Run rnp install first.", ?_⟩
  simp [handleCiModel, ensureLockfileInSync, h]

theorem ci_root_manifest_out_of_sync_fails_witness :
    ∃ e, handleCiModel linuxEnv true ciLockfile true "package.json"
      [("left-pad", "^1.3.0")] = ([], .error e) :=
  ci_root_manifest_out_of_sync_fails linuxEnv ciLockfile [("left-pad", "^1.3.0")] (by decide)

/-- C1 counterexample: with `a` committed at version 1.0.0 and depth 1, a
work item `(a, ^2.0.0, depth 2)` whose requirement does not match the
commitment is not skipped: the loop re-resolves it and overwrites the
commitment with `(2.0.0, 2)`.  The full run from the root shows the
resolver's output for `a` is the overwrite, not the first commit. -/
theorem resolver_deeper_item_displaces_commitment :
    (match resolveLoop [] registryDisplace [] 5 [("a", reqOfText "^2.0.0", 2, false)]
        stateCommittedA with
     | .ok st => assocLookup "a" st.resolved
     | .error _ => none) = some (⟨2, 0, 0, []⟩, 2)
    ∧ (match resolveDependencies [] registryDisplace [] "root" 12 with
       | .ok (pkgs, _) =>
         (pkgs.find? fun p => p.info.name == "a").map fun p => (p.info.version, p.depth)
       | .error _ => none) = some (⟨2, 0, 0, []⟩, 2)
    ∧ (reqOfText "^2.0.0").matches ⟨1, 0, 0, []⟩ = false
    ∧ assocLookup "a" stateCommittedA.resolved = some (⟨1, 0, 0, []⟩, 1) :=
  ⟨rfl, rfl, rfl, rfl⟩

/-- C1 amended: for a work item whose name is already committed, the loop
skips it when its requirement matches the committed version; it records a
conflict and skips when it is not deeper than the commitment; but a strictly
deeper item with a non-matching requirement is fetched afresh and its result
overwrites the committed version and depth, with its dependencies enqueued
again. -/
theorem resolver_committed_item_cases :
    ∀ (ws : List (String × WorkspacePackage)) (reg : Registry)
      (locked : List (String × SemVer)) (fuel : Nat) (name : String)
      (req : NpmVersionReq) (depth : Nat) (isOpt : Bool)
      (rest : List (String × NpmVersionReq × Nat × Bool)) (st : ResolverState)
      (v : SemVer) (d : Nat),
      assocLookup name st.resolved = some (v, d) →
      (req.matches v = true →
        resolveLoop ws reg locked (fuel + 1) ((name, req, depth, isOpt) :: rest) st
          = resolveLoop ws reg locked fuel rest st)
      ∧ (req.matches v = false → depth ≤ d →
        resolveLoop ws reg locked (fuel + 1) ((name, req, depth, isOpt) :: rest) st
          = resolveLoop ws reg locked fuel rest
              { st with conflicts := st.conflicts ++ [conflictMessage name req v] })
      ∧ (req.matches v = false → d < depth → ∀ info,
          fetchPackageMetadata ws reg name req (assocLookup name locked) = .ok info →
          resolveLoop ws reg locked (fuel + 1) ((name, req, depth, isOpt) :: rest) st
            = resolveLoop ws reg locked fuel (rest ++ enqueueChildren info depth)
                (commitState st name info depth isOpt)
          ∧ assocLookup name (commitState st name info depth isOpt).resolved
              = some (info.version, depth)) := by
  intro ws reg locked fuel name req depth isOpt rest st v d hres
  have hstep : resolveLoop ws reg locked (fuel + 1) ((name, req, depth, isOpt) :: rest) st
      = match queueAction st name req depth with
        | .skip => resolveLoop ws reg locked fuel rest st
        | .conflict msg =>
          resolveLoop ws reg locked fuel rest
            { st with conflicts := st.conflicts ++ [msg] }
        | .proceed =>
          match fetchPackageMetadata ws reg name req (assocLookup name locked) with
          | .error err =>
            if isOpt then
              resolveLoop ws reg locked fuel rest
                { st with conflicts := st.conflicts ++ [optionalSkipMessage name req err] }
            else .error err
          | .ok info =>
            resolveLoop ws reg locked fuel (rest ++ enqueueChildren info depth)
              (commitState st name info depth isOpt) := rfl
  refine ⟨?_, ?_, ?_⟩
  · intro hm
    rw [hstep]
    have hqa : queueAction st name req depth = .skip := by
      simp [queueAction, hres, hm]
    rw [hqa]
  · intro hm hd
    rw [hstep]
    have hqa : queueAction st name req depth = .conflict (conflictMessage name req v) := by
      simp [queueAction, hres, hm, hd]
    rw [hqa]
  · intro hm hd info hfetch
    constructor
    · rw [hstep]
      have hqa : queueAction st name req depth = .proceed := by
        simp [queueAction, hres, hm, Nat.not_le.mpr hd]
      rw [hqa, hfetch]
    · simp [commitState, assocLookup_update_self]

theorem resolver_committed_item_cases_witness :
    resolveLoop [] registryDisplace [] 3 [("a", reqOfText "^1.0.0", 2, false)] stateCommittedA
      = resolveLoop [] registryDisplace [] 2 [] stateCommittedA :=
  (resolver_committed_item_cases [] registryDisplace [] 2 "a" (reqOfText "^1.0.0") 2 false []
    stateCommittedA ⟨1, 0, 0, []⟩ 1 rfl).1 rfl

theorem then_ne_gt (o₁ o₂ : Ordering) :
    (o₁.then o₂ ≠ .gt) ↔ (o₁ = .lt ∨ (o₁ = .eq ∧ o₂ ≠ .gt)) := by
  cases o₁ <;> cases o₂ <;> simp [Ordering.then]

theorem cmpSwapEq {α : Type} {c : α → α → Ordering}
    (hswap : ∀ a b, c a b = (c b a).swap) {a b : α} {o : Ordering}
    (h : c a b = o) : c b a = o.swap := by
  have hs := hswap b a
  rw [h] at hs
  exact hs

theorem cmpLtOfLtOfLe {α : Type} (c : α → α → Ordering)
    (hswap : ∀ a b, c a b = (c b a).swap)
    (htrans : ∀ a b d, c a b ≠ .gt → c b d ≠ .gt → c a d ≠ .gt)
    (a b d : α) (hab : c a b = .lt) (hbd : c b d ≠ .gt) : c a d = .lt := by
  have h1 : c a d ≠ .gt := htrans a b d (by rw [hab]; simp) hbd
  cases h : c a d with
  | lt => rfl
  | eq =>
    exfalso
    have hda : c d a = Ordering.swap .eq := cmpSwapEq hswap h
    have hba : c b a ≠ .gt := htrans b d a hbd (by rw [hda]; simp [Ordering.swap])
    exact hba (cmpSwapEq hswap hab)
  | gt => exact absurd h h1

theorem cmpLtOfLeOfLt {α : Type} (c : α → α → Ordering)
    (hswap : ∀ a b, c a b = (c b a).swap)
    (htrans : ∀ a b d, c a b ≠ .gt → c b d ≠ .gt → c a d ≠ .gt)
    (a b d : α) (hab : c a b ≠ .gt) (hbd : c b d = .lt) : c a d = .lt := by
  have h1 : c a d ≠ .gt := htrans a b d hab (by rw [hbd]; simp)
  cases h : c a d with
  | lt => rfl
  | eq =>
    exfalso
    have hda : c d a = Ordering.swap .eq := cmpSwapEq hswap h
    have hdb : c d b ≠ .gt := htrans d a b (by rw [hda]; simp [Ordering.swap]) hab
    exact hdb (cmpSwapEq hswap hbd)
  | gt => exact absurd h h1

theorem cmpEqTrans {α : Type} (c : α → α → Ordering)
    (hswap : ∀ a b, c a b = (c b a).swap)
    (htrans : ∀ a b d, c a b ≠ .gt → c b d ≠ .gt → c a d ≠ .gt)
    (a b d : α) (hab : c a b = .eq) (hbd : c b d = .eq) : c a d = .eq := by
  have h1 : c a d ≠ .gt := htrans a b d (by rw [hab]; simp) (by rw [hbd]; simp)
  have h2 : c d a ≠ .gt := htrans d b a
    (by rw [cmpSwapEq hswap hbd]; simp [Ordering.swap])
    (by rw [cmpSwapEq hswap hab]; simp [Ordering.swap])
  cases h : c a d with
  | eq => rfl
  | lt => exact absurd (cmpSwapEq hswap h) h2
  | gt => exact absurd h h1

theorem thenCmpSwap {α : Type} (c₁ c₂ : α → α → Ordering)
    (h₁ : ∀ a b, c₁ a b = (c₁ b a).swap) (h₂ : ∀ a b, c₂ a b = (c₂ b a).swap) :
    ∀ a b, thenCmp c₁ c₂ a b = (thenCmp c₁ c₂ b a).swap := by
  intro a b
  unfold thenCmp
  rw [h₁ a b, h₂ a b]
  cases c₁ b a <;> cases c₂ b a <;> rfl

theorem thenCmpLeTrans {α : Type} (c₁ c₂ : α → α → Ordering)
    (h₁s : ∀ a b, c₁ a b = (c₁ b a).swap)
    (h₁t : ∀ a b d, c₁ a b ≠ .gt → c₁ b d ≠ .gt → c₁ a d ≠ .gt)
    (h₂t : ∀ a b d, c₂ a b ≠ .gt → c₂ b d ≠ .gt → c₂ a d ≠ .gt) :
    ∀ a b d, thenCmp c₁ c₂ a b ≠ .gt → thenCmp c₁ c₂ b d ≠ .gt → thenCmp c₁ c₂ a d ≠ .gt := by
  intro a b d hab hbd
  rw [thenCmp, then_ne_gt] at hab hbd ⊢
  rcases hab with h1 | ⟨h1, h2⟩
  · rcases hbd with g1 | ⟨g1, _⟩
    · exact Or.inl (cmpLtOfLtOfLe c₁ h₁s h₁t a b d h1 (by rw [g1]; simp))
    · exact Or.inl (cmpLtOfLtOfLe c₁ h₁s h₁t a b d h1 (by rw [g1]; simp))
  · rcases hbd with g1 | ⟨g1, g2⟩
    · exact Or.inl (cmpLtOfLeOfLt c₁ h₁s h₁t a b d (by rw [h1]; simp) g1)
    · exact Or.inr ⟨cmpEqTrans c₁ h₁s h₁t a b d h1 g1, h₂t a b d h2 g2⟩

theorem natCmp_swap (a b : Nat) : natCmp a b = (natCmp b a).swap := by
  unfold natCmp
  rcases Nat.lt_trichotomy a b with h | h | h
  · simp [h, Nat.lt_asymm h, Ordering.swap]
  · subst h
    simp [Nat.lt_irrefl, Ordering.swap]
  · simp [h, Nat.lt_asymm h, Ordering.swap]

theorem natCmp_ne_gt (a b : Nat) : (natCmp a b ≠ .gt) ↔ a ≤ b := by
  unfold natCmp
  rcases Nat.lt_trichotomy a b with h | h | h
  · simp [h, Nat.le_of_lt h, Nat.lt_asymm h]
  · subst h
    simp [Nat.lt_irrefl]
  · simp [h, Nat.lt_asymm h]

theorem natCmp_le_trans (a b d : Nat)
    (h1 : natCmp a b ≠ .gt) (h2 : natCmp b d ≠ .gt) : natCmp a d ≠ .gt := by
  rw [natCmp_ne_gt] at h1 h2 ⊢
  omega

theorem charCmp_swap (a b : Char) : charCmp a b = (charCmp b a).swap :=
  natCmp_swap _ _

theorem charCmp_le_trans (a b d : Char)
    (h1 : charCmp a b ≠ .gt) (h2 : charCmp b d ≠ .gt) : charCmp a d ≠ .gt :=
  natCmp_le_trans _ _ _ h1 h2

theorem lexCmp_swap {α : Type} (c : α → α → Ordering)
    (hs : ∀ a b, c a b = (c b a).swap) :
    ∀ a b, lexCmp c a b = (lexCmp c b a).swap := by
  intro a
  induction a with
  | nil =>
    intro b
    cases b <;> rfl
  | cons x xs ih =>
    intro b
    cases b with
    | nil => rfl
    | cons y ys =>
      simp only [lexCmp]
      rw [hs x y]
      cases hcyx : c y x with
      | lt => rfl
      | eq => exact ih ys
      | gt => rfl

theorem lexCmp_le_trans {α : Type} (c : α → α → Ordering)
    (hs : ∀ a b, c a b = (c b a).swap)
    (ht : ∀ a b d, c a b ≠ .gt → c b d ≠ .gt → c a d ≠ .gt) :
    ∀ a b d, lexCmp c a b ≠ .gt → lexCmp c b d ≠ .gt → lexCmp c a d ≠ .gt := by
  intro a
  induction a with
  | nil =>
    intro b d _ _
    cases d <;> simp [lexCmp]
  | cons x xs ih =>
    intro b d hab hbd
    cases b with
    | nil => simp [lexCmp] at hab
    | cons y ys =>
      cases d with
      | nil => simp [lexCmp] at hbd
      | cons z zs =>
        simp only [lexCmp] at hab hbd ⊢
        cases hxy : c x y with
        | gt =>
          rw [hxy] at hab
          exact absurd rfl hab
        | lt =>
          cases hyz : c y z with
          | gt =>
            rw [hyz] at hbd
            exact absurd rfl hbd
          | lt =>
            have hxz : c x z = .lt := cmpLtOfLtOfLe c hs ht x y z hxy (by rw [hyz]; simp)
            rw [hxz]
            simp
          | eq =>
            have hxz : c x z = .lt := cmpLtOfLtOfLe c hs ht x y z hxy (by rw [hyz]; simp)
            rw [hxz]
            simp
        | eq =>
          rw [hxy] at hab
          cases hyz : c y z with
          | gt =>
            rw [hyz] at hbd
            exact absurd rfl hbd
          | lt =>
            have hxz : c x z = .lt := cmpLtOfLeOfLt c hs ht x y z (by rw [hxy]; simp) hyz
            rw [hxz]
            simp
          | eq =>
            rw [hyz] at hbd
            have hxz : c x z = .eq := cmpEqTrans c hs ht x y z hxy hyz
            rw [hxz]
            exact ih ys zs hab hbd

theorem preIdCmp_swap (a b : PreId) : preIdCmp a b = (preIdCmp b a).swap := by
  cases a with
  | num n =>
    cases b with
    | num m => exact natCmp_swap n m
    | alpha s => rfl
  | alpha s =>
    cases b with
    | num m => rfl
    | alpha t => exact lexCmp_swap charCmp charCmp_swap s.data t.data

theorem preIdCmp_le_trans (a b d : PreId)
    (hab : preIdCmp a b ≠ .gt) (hbd : preIdCmp b d ≠ .gt) : preIdCmp a d ≠ .gt := by
  cases a with
  | num n =>
    cases b with
    | num m =>
      cases d with
      | num k => exact natCmp_le_trans n m k hab hbd
      | alpha u => simp [preIdCmp]
    | alpha s =>
      cases d with
      | num k => exact absurd rfl hbd
      | alpha u => simp [preIdCmp]
  | alpha s =>
    cases b with
    | num m => exact absurd rfl hab
    | alpha t =>
      cases d with
      | num k => exact absurd rfl hbd
      | alpha u =>
        exact lexCmp_le_trans charCmp charCmp_swap charCmp_le_trans s.data t.data u.data hab hbd

theorem preCmp_swap (a b : List PreId) : preCmp a b = (preCmp b a).swap := by
  cases a with
  | nil =>
    cases b with
    | nil => rfl
    | cons y ys => rfl
  | cons x xs =>
    cases b with
    | nil => rfl
    | cons y ys => exact lexCmp_swap preIdCmp preIdCmp_swap (x :: xs) (y :: ys)

theorem preCmp_le_trans (a b d : List PreId)
    (hab : preCmp a b ≠ .gt) (hbd : preCmp b d ≠ .gt) : preCmp a d ≠ .gt := by
  cases a with
  | nil =>
    cases b with
    | nil => exact hbd
    | cons y ys => exact absurd rfl hab
  | cons x xs =>
    cases b with
    | nil =>
      cases d with
      | nil => simp [preCmp]
      | cons z zs => exact absurd rfl hbd
    | cons y ys =>
      cases d with
      | nil => simp [preCmp]
      | cons z zs =>
        exact lexCmp_le_trans preIdCmp preIdCmp_swap preIdCmp_le_trans
          (x :: xs) (y :: ys) (z :: zs) hab hbd

theorem semverCmp_swap (a b : SemVer) : semverCmp a b = (semverCmp b a).swap := by
  unfold semverCmp
  exact thenCmpSwap _ _
    (fun v w => natCmp_swap v.major w.major)
    (thenCmpSwap _ _
      (fun v w => natCmp_swap v.minor w.minor)
      (thenCmpSwap _ _
        (fun v w => natCmp_swap v.patch w.patch)
        (fun v w => preCmp_swap v.pre w.pre))) a b

theorem semverCmp_le_trans (a b d : SemVer)
    (hab : semverCmp a b ≠ .gt) (hbd : semverCmp b d ≠ .gt) : semverCmp a d ≠ .gt := by
  unfold semverCmp at hab hbd ⊢
  exact thenCmpLeTrans _ _
    (fun v w => natCmp_swap v.major w.major)
    (fun v w u => natCmp_le_trans v.major w.major u.major)
    (thenCmpLeTrans _ _
      (fun v w => natCmp_swap v.minor w.minor)
      (fun v w u => natCmp_le_trans v.minor w.minor u.minor)
      (thenCmpLeTrans _ _
        (fun v w => natCmp_swap v.patch w.patch)
        (fun v w u => natCmp_le_trans v.patch w.patch u.patch)
        (fun v w u => preCmp_le_trans v.pre w.pre u.pre)))
    a b d hab hbd

theorem semverLeB_iff (a b : SemVer) : semverLeB a b = true ↔ semverCmp a b ≠ .gt := by
  unfold semverLeB
  cases h : semverCmp a b <;> simp

theorem semverLeB_total (a b : SemVer) : semverLeB a b = true ∨ semverLeB b a = true := by
  cases h : semverCmp a b with
  | gt =>
    right
    rw [semverLeB_iff]
    have hba : semverCmp b a = Ordering.swap .gt := cmpSwapEq semverCmp_swap h
    rw [hba]
    simp [Ordering.swap]
  | lt =>
    left
    rw [semverLeB_iff, h]
    simp
  | eq =>
    left
    rw [semverLeB_iff, h]
    simp

theorem semverLeB_trans (a b d : SemVer)
    (h1 : semverLeB a b = true) (h2 : semverLeB b d = true) : semverLeB a d = true := by
  rw [semverLeB_iff] at h1 h2 ⊢
  exact semverCmp_le_trans a b d h1 h2

theorem mem_insertDescBy {α : Type} (le : α → α → Bool) (x y : α) (l : List α) :
    y ∈ insertDescBy le x l ↔ y = x ∨ y ∈ l := by
  induction l with
  | nil => simp [insertDescBy]
  | cons z zs ih =>
    by_cases h : le z x = true
    · simp [insertDescBy, h]
    · simp only [insertDescBy, if_neg h, List.mem_cons, ih]
      tauto

theorem mem_sortDescBy {α : Type} (le : α → α → Bool) (y : α) (l : List α) :
    y ∈ sortDescBy le l ↔ y ∈ l := by
  induction l with
  | nil => simp [sortDescBy]
  | cons x xs ih => simp [sortDescBy, mem_insertDescBy, ih]

theorem insertDescBy_headBound {α : Type} (le : α → α → Bool)
    (htot : ∀ a b, le a b = true ∨ le b a = true)
    (htr : ∀ a b d, le a b = true → le b d = true → le a d = true) (x : α)
    (s : List α) (hbound : ∀ h hs, s = h :: hs → ∀ y ∈ s, le y h = true) :
    ∀ h hs, insertDescBy le x s = h :: hs → ∀ y ∈ insertDescBy le x s, le y h = true := by
  cases s with
  | nil =>
    intro h hs heq y hy
    simp only [insertDescBy] at heq hy
    injection heq with h1 _
    subst h1
    simp only [List.mem_singleton] at hy
    subst hy
    rcases htot y y with ht | ht <;> exact ht
  | cons b s' =>
    intro h hs heq y hy
    by_cases hbx : le b x = true
    · rw [insertDescBy, if_pos hbx] at heq hy
      injection heq with h1 _
      subst h1
      rcases List.mem_cons.mp hy with rfl | hy2
      · rcases htot y y with ht | ht <;> exact ht
      · rcases List.mem_cons.mp hy2 with rfl | hy3
        · exact hbx
        · exact htr y b x (hbound b s' rfl y (List.mem_cons_of_mem _ hy3)) hbx
    · rw [insertDescBy, if_neg hbx] at heq hy
      injection heq with h1 _
      subst h1
      have hxb : le x b = true := by
        rcases htot b x with ht | ht
        · exact absurd ht hbx
        · exact ht
      rcases List.mem_cons.mp hy with rfl | hy2
      · rcases htot y y with ht | ht <;> exact ht
      · rcases (mem_insertDescBy le x y s').mp hy2 with rfl | hy3
        · exact hxb
        · exact hbound b s' rfl y (List.mem_cons_of_mem _ hy3)

theorem sortDescBy_headBound {α : Type} (le : α → α → Bool)
    (htot : ∀ a b, le a b = true ∨ le b a = true)
    (htr : ∀ a b d, le a b = true → le b d = true → le a d = true) :
    ∀ (l : List α) h hs, sortDescBy le l = h :: hs →
      ∀ y ∈ sortDescBy le l, le y h = true := by
  intro l
  induction l with
  | nil =>
    intro h hs heq
    simp [sortDescBy] at heq
  | cons x xs ih =>
    intro h hs heq y hy
    rw [sortDescBy] at heq hy
    exact insertDescBy_headBound le htot htr x (sortDescBy le xs) ih h hs heq y hy

theorem sortDescBy_head_max {α : Type} (le : α → α → Bool)
    (htot : ∀ a b, le a b = true ∨ le b a = true)
    (htr : ∀ a b d, le a b = true → le b d = true → le a d = true)
    (l : List α) (v : α) (h : (sortDescBy le l).head? = some v) :
    v ∈ l ∧ ∀ y ∈ l, le y v = true := by
  cases hsort : sortDescBy le l with
  | nil =>
    rw [hsort] at h
    simp at h
  | cons h0 t0 =>
    rw [hsort] at h
    simp only [List.head?_cons, Option.some.injEq] at h
    subst h
    constructor
    · have hv : h0 ∈ sortDescBy le l := by
        rw [hsort]
        exact List.mem_cons_self _ _
      exact (mem_sortDescBy le h0 l).mp hv
    · intro y hy
      exact sortDescBy_headBound le htot htr l h0 t0 hsort y ((mem_sortDescBy le y l).mpr hy)

theorem pickGreatest_ok (m : List SemVer) (v : SemVer) (h : pickGreatest m = .ok v) :
    v ∈ m ∧ ∀ u ∈ m, semverLeB u v = true := by
  unfold pickGreatest at h
  cases hh : (sortDescBy semverLeB m).head? with
  | none =>
    rw [hh] at h
    exact absurd h (by simp)
  | some w =>
    rw [hh] at h
    injection h with h1
    subst h1
    exact sortDescBy_head_max semverLeB semverLeB_total semverLeB_trans m w hh

/-- C4 counterexample: the locked version 2.0.0 satisfies the requirement
`>=1.0.0` but is not among the registry's version keys, so the code falls
back to the greatest matching registry version 1.0.0 instead of picking the
locked version, contrary to the claim. -/
theorem find_best_version_locked_not_in_registry :
    (NpmVersionReq.parse ">=1.0.0").map
        (fun r => findBestVersion ["1.0.0"] r (some ⟨2, 0, 0, []⟩)) = .ok (.ok ⟨1, 0, 0, []⟩)
    ∧ (NpmVersionReq.parse ">=1.0.0").map (fun r => r.matches ⟨2, 0, 0, []⟩) = .ok true
    ∧ ((⟨1, 0, 0, []⟩ : SemVer) == ⟨2, 0, 0, []⟩) = false :=
  ⟨rfl, rfl, by decide⟩

/-- C4 amended: a locked version is picked only when it is itself among the
registry's version keys that parse as semver and satisfy the requirement;
otherwise the greatest such version is picked (descending-sort head), and the
selection fails exactly when no key satisfies the requirement. -/
theorem find_best_version_spec :
    ∀ (avail : List String) (req : NpmVersionReq) (locked : Option SemVer),
      (∀ l, locked = some l → l ∈ matchingVersions avail req →
        findBestVersion avail req locked = .ok l)
      ∧ (matchingVersions avail req = [] →
        findBestVersion avail req locked = .error "No matching version found")
      ∧ (∀ v, findBestVersion avail req locked = .ok v →
        v ∈ matchingVersions avail req
        ∧ (locked = some v ∨ ∀ u ∈ matchingVersions avail req, semverLeB u v = true)) := by
  intro avail req locked
  refine ⟨?_, ?_, ?_⟩
  · intro l hl hmem
    subst hl
    have hany : (matchingVersions avail req).any (fun v => v == l) = true := by
      rw [List.any_eq_true]
      exact ⟨l, hmem, by simp⟩
    simp [findBestVersion, hany]
  · intro hempty
    cases locked with
    | none => simp [findBestVersion, hempty, pickGreatest, sortDescBy]
    | some l => simp [findBestVersion, hempty, pickGreatest, sortDescBy]
  · intro v hv
    cases hl : locked with
    | none =>
      rw [hl] at hv
      simp only [findBestVersion] at hv
      have hp := pickGreatest_ok _ v hv
      exact ⟨hp.1, Or.inr hp.2⟩
    | some l =>
      rw [hl] at hv
      simp only [findBestVersion] at hv
      by_cases hany : (matchingVersions avail req).any (fun w => w == l) = true
      · rw [if_pos hany] at hv
        injection hv with hveq
        subst hveq
        rw [List.any_eq_true] at hany
        obtain ⟨w, hwmem, hwl⟩ := hany
        have hw : w = l := by simpa using hwl
        subst hw
        exact ⟨hwmem, Or.inl rfl⟩
      · rw [if_neg hany] at hv
        have hp := pickGreatest_ok _ v hv
        exact ⟨hp.1, Or.inr hp.2⟩

theorem find_best_version_spec_witness :
    findBestVersion ["1.0.0", "2.0.0"] (reqOfText ">=1.0.0") (some ⟨2, 0, 0, []⟩)
      = .ok ⟨2, 0, 0, []⟩ :=
  (find_best_version_spec ["1.0.0", "2.0.0"] (reqOfText ">=1.0.0") (some ⟨2, 0, 0, []⟩)).1
    ⟨2, 0, 0, []⟩ rfl (by decide)
